import Mathlib

/-!
Shallow embedding of the `simple-octree` Rust crate (src/lib.rs and
src/managed_octree.rs), together with proofs about its specification.

Conventions of the embedding:
* The scalar type `S` of the crate (generic over `Add/Sub/Div/One/PartialOrd`)
  is instantiated at `ℚ`, an exact ordered field, matching the arithmetic the
  crate performs (`half_length / (one + one)`, `+`, `-`, `>`).
* `Vec<T>` is modelled as `List T` (push = append, iteration in order).
* `HashMap<K, V>` is modelled as `HashMapModel K V`, an insertion-ordered list
  of key/value entries in which `add` rejects an already-present key, exactly
  as the crate's `OctreeCollection` impl for `HashMap` does.
* Rust mutation is modelled by explicit state passing: a method
  `fn f(&mut self, ...) -> R` becomes `f : Octree D → ... → Octree D × R`.
* Rust panics (`unwrap`, `panic!` in `with_drop_below_size` and
  `get_child_pos_at_idx`) are modelled by `Option`, `none` meaning a panic.
-/

namespace SimpleOctree

/-- Model of `enum AddChildError { AlreadyAdded, OutOfBoundsIdx }`. -/
inductive AddChildError : Type where
  | AlreadyAdded : AddChildError
  | OutOfBoundsIdx : AddChildError
deriving DecidableEq, Repr

/-- Model of `struct Octree<D> { children: [Option<Box<Octree<D>>>; 8], data: D }`.
The fixed-size array of eight optional children is modelled by eight explicit
`Option` fields. -/
inductive Octree (D : Type) : Type where
  | mk (c0 c1 c2 c3 c4 c5 c6 c7 : Option (Octree D)) (data : D)

namespace Octree

variable {D : Type}

/-- The `data` field of the node. -/
def get_data : Octree D → D
  | mk _ _ _ _ _ _ _ _ d => d

/-- Model of the array read `self.children[idx]` / `self.children.get(idx)`:
in-range indices return the slot, out-of-range indices return nothing
(`self.children.len()` is the constant 8). -/
def children_at : Octree D → ℕ → Option (Octree D)
  | mk c0 _ _ _ _ _ _ _ _, 0 => c0
  | mk _ c1 _ _ _ _ _ _ _, 1 => c1
  | mk _ _ c2 _ _ _ _ _ _, 2 => c2
  | mk _ _ _ c3 _ _ _ _ _, 3 => c3
  | mk _ _ _ _ c4 _ _ _ _, 4 => c4
  | mk _ _ _ _ _ c5 _ _ _, 5 => c5
  | mk _ _ _ _ _ _ c6 _ _, 6 => c6
  | mk _ _ _ _ _ _ _ c7 _, 7 => c7
  | _, _ => none

/-- Model of the array write `self.children[idx] = v` (in-range only;
all callers in the crate write at an index `< 8`). -/
def set_child_slot : Octree D → ℕ → Option (Octree D) → Octree D
  | mk _ c1 c2 c3 c4 c5 c6 c7 d, 0, v => mk v c1 c2 c3 c4 c5 c6 c7 d
  | mk c0 _ c2 c3 c4 c5 c6 c7 d, 1, v => mk c0 v c2 c3 c4 c5 c6 c7 d
  | mk c0 c1 _ c3 c4 c5 c6 c7 d, 2, v => mk c0 c1 v c3 c4 c5 c6 c7 d
  | mk c0 c1 c2 _ c4 c5 c6 c7 d, 3, v => mk c0 c1 c2 v c4 c5 c6 c7 d
  | mk c0 c1 c2 c3 _ c5 c6 c7 d, 4, v => mk c0 c1 c2 c3 v c5 c6 c7 d
  | mk c0 c1 c2 c3 c4 _ c6 c7 d, 5, v => mk c0 c1 c2 c3 c4 v c6 c7 d
  | mk c0 c1 c2 c3 c4 c5 _ c7 d, 6, v => mk c0 c1 c2 c3 c4 c5 v c7 d
  | mk c0 c1 c2 c3 c4 c5 c6 _ d, 7, v => mk c0 c1 c2 c3 c4 c5 c6 v d
  | t, _, _ => t

/-- Replace the node's `data` field (models a write through `get_data_mut`). -/
def set_data : Octree D → D → Octree D
  | mk c0 c1 c2 c3 c4 c5 c6 c7 _, d => mk c0 c1 c2 c3 c4 c5 c6 c7 d

/-- Model of `Octree::new_with_data` (children all `None`). -/
def new_with_data (d : D) : Octree D := mk none none none none none none none none d

/-- Model of `Octree::add_child`.  In Rust the method mutates `self` and
returns `Result<&mut Self, AddChildError>`; here it returns the updated tree
together with the error, `none` meaning success (the inserted child is then
readable via `get_child`). -/
def add_child (t : Octree D) (idx : ℕ) (child : Octree D) :
    Octree D × Option AddChildError :=
  if 8 ≤ idx then (t, some .OutOfBoundsIdx)
  else if (children_at t idx).isSome then (t, some .AlreadyAdded)
  else (set_child_slot t idx (some child), none)

/-- Model of `Octree::get_child_idx_at_pos`. -/
def get_child_idx_at_pos (pos_x pos_y pos_z : Bool) : ℕ :=
  match pos_x, pos_y, pos_z with
  | false, false, false => 0
  | false, false, true => 1
  | false, true, false => 2
  | false, true, true => 3
  | true, false, false => 4
  | true, false, true => 5
  | true, true, false => 6
  | true, true, true => 7

/-- Model of `Octree::get_child_pos_at_idx`; the source panics when `idx > 7`,
modelled by `none`. -/
def get_child_pos_at_idx (idx : ℕ) : Option (Bool × Bool × Bool) :=
  match idx with
  | 0 => some (false, false, false)
  | 1 => some (false, false, true)
  | 2 => some (false, true, false)
  | 3 => some (false, true, true)
  | 4 => some (true, false, false)
  | 5 => some (true, false, true)
  | 6 => some (true, true, false)
  | 7 => some (true, true, true)
  | _ => none

/-- Model of `Octree::add_child_at_pos`. -/
def add_child_at_pos (t : Octree D) (pos_x pos_y pos_z : Bool) (child : Octree D) :
    Octree D × Option AddChildError :=
  add_child t (get_child_idx_at_pos pos_x pos_y pos_z) child

/-- Model of `Octree::remove_child`: detaches and returns the child; an
out-of-range index (`self.children.get(idx).is_none()`) yields nothing and
leaves the node unchanged. -/
def remove_child (t : Octree D) (idx : ℕ) : Octree D × Option (Octree D) :=
  if 8 ≤ idx then (t, none)
  else (set_child_slot t idx none, children_at t idx)

/-- Model of `Octree::remove_child_at_pos`. -/
def remove_child_at_pos (t : Octree D) (pos_x pos_y pos_z : Bool) :
    Octree D × Option (Octree D) :=
  remove_child t (get_child_idx_at_pos pos_x pos_y pos_z)

/-- Model of `Octree::get_child`. -/
def get_child (t : Octree D) (idx : ℕ) : Option (Octree D) :=
  if 8 ≤ idx then none else children_at t idx

/-- Model of `Octree::get_child_at_pos`. -/
def get_child_at_pos (t : Octree D) (pos_x pos_y pos_z : Bool) : Option (Octree D) :=
  get_child t (get_child_idx_at_pos pos_x pos_y pos_z)

end Octree

/-! ## The item-collection abstraction (`managed_octree.rs`) -/

/-- Model of `trait OctreeCollection<I>` together with the other trait bounds
the managed tree puts on its collection type (`Default`, `Len`, `Clear`,
`IntoIterator`):
* `empty` models `D::default()`,
* `add` models `OctreeCollection::add` — `none` means the insertion was
  rejected and the collection is unchanged,
* `clear` models `Clear::clear`,
* `len` models `Len::len`,
* `toList` models `IntoIterator` (the iteration order of the collection). -/
class OctreeCollection (D : Type) (I : outParam Type) where
  empty : D
  add : D → I → Option D
  clear : D → D
  len : D → ℕ
  toList : D → List I

/-- Model of `trait CentredItem<S>` at the scalar `ℚ`. -/
class CentredItem (I : Type) where
  centre : I → ℚ × ℚ × ℚ

/-- Model of `impl CentredItem<S> for (S, S, S)`. -/
instance : CentredItem (ℚ × ℚ × ℚ) := ⟨fun p => p⟩

/-- Model of `impl CentredItem<S> for (K, (S, S, S))`. -/
instance {K : Type} : CentredItem (K × (ℚ × ℚ × ℚ)) := ⟨fun p => p.2⟩

/-- Model of `impl OctreeCollection<I> for Vec<I>`: `push` appends and always
succeeds; iteration is in insertion order. -/
instance {T : Type} : OctreeCollection (List T) T where
  empty := []
  add l item := some (l ++ [item])
  clear _ := []
  len := List.length
  toList := id

/-- Model of `std::collections::HashMap<K, V>` as an insertion-ordered list of
key/value entries.  A real `HashMap` never holds two entries with the same
key; model values with duplicate keys do not correspond to reachable states. -/
structure HashMapModel (K V : Type) : Type where
  entries : List (K × V)
deriving DecidableEq

/-- Model of `impl OctreeCollection<(K, V)> for HashMap<K, V>`: an item whose
key is already present is rejected (`contains_key` then `insert`); `len` is
the number of entries; iteration yields the entries. -/
instance {K V : Type} [DecidableEq K] :
    OctreeCollection (HashMapModel K V) (K × V) where
  empty := ⟨[]⟩
  add m item :=
    if m.entries.any (fun e => e.1 = item.1) then none
    else some ⟨m.entries ++ [item]⟩
  clear _ := ⟨[]⟩
  len m := m.entries.length
  toList m := m.entries

/-! ## The managed octree -/

/-- Model of `struct ManagedOctreeData<D, S>` at `S = ℚ`. -/
structure ManagedOctreeData (D : Type) : Type where
  centre : ℚ × ℚ × ℚ
  half_length : ℚ
  max_size : ℕ
  drop_below_size : ℕ
  len : ℕ
  data : D

/-- Model of `impl Default for ManagedOctreeData`. -/
def ManagedOctreeData.default (D : Type) {I : Type} [OctreeCollection D I] :
    ManagedOctreeData D :=
  { centre := (0, 0, 0)
    half_length := 1
    max_size := 1
    drop_below_size := 1
    len := 0
    data := OctreeCollection.empty }

/-- Model of `type ManagedOctree<D, S> = Octree<ManagedOctreeData<D, S>>`. -/
abbrev ManagedOctree (D : Type) : Type := Octree (ManagedOctreeData D)

/-- Model of `type ManagedVecOctree<T, S>`. -/
abbrev ManagedVecOctree (T : Type) : Type := ManagedOctree (List T)

/-- Model of `type ManagedHashMapOctree<K, V, S>`. -/
abbrev ManagedHashMapOctree (K V : Type) : Type := ManagedOctree (HashMapModel K V)

namespace Octree

variable {D I : Type} [OctreeCollection D I] [CentredItem I]

/-- Model of `ManagedOctree::new_managed`. -/
def new_managed (centre : ℚ × ℚ × ℚ) (half_length : ℚ) : ManagedOctree D :=
  new_with_data { ManagedOctreeData.default D (I := I) with
    centre := centre, half_length := half_length }

/-- Model of `ManagedOctree::with_max_size`. -/
def with_max_size (t : ManagedOctree D) (max_size : ℕ) : ManagedOctree D :=
  set_data t { t.get_data with max_size := max_size }

/-- Model of `ManagedOctree::with_drop_below_size`; the source panics when the
argument is `0`, modelled by `none`. -/
def with_drop_below_size (t : ManagedOctree D) (drop_below_size : ℕ) :
    Option (ManagedOctree D) :=
  if drop_below_size = 0 then none
  else some (set_data t { t.get_data with drop_below_size := drop_below_size })

/-- Model of `ManagedOctree::add`: the collection's `add` is called (its
rejection signal is discarded) and the cached `len` is incremented
unconditionally, exactly as in the source. -/
def madd (t : ManagedOctree D) (item : I) : ManagedOctree D :=
  let d := t.get_data
  let data' := match OctreeCollection.add d.data item with
    | some d' => d'
    | none => d.data
  set_data t { d with data := data', len := d.len + 1 }

/-- Model of `ManagedOctree::clear_data`: `self.data.len -= self.data.data.len()`
followed by `self.data.data.clear()`.  (The subtraction is `ℕ`-truncated; in
every state reachable through the crate's API the cached `len` is at least the
collection's length, so no underflow occurs.) -/
def clear_data (t : ManagedOctree D) : ManagedOctree D :=
  let d := t.get_data
  set_data t { d with
    len := d.len - OctreeCollection.len d.data
    data := OctreeCollection.clear d.data }

/-- The octant index the redistribution pass computes for an item: strict
greater-than comparison against the node's centre on each axis
(`Self::get_child_idx_at_pos(ix > cx, iy > cy, iz > cz)`). -/
def route (cen : ℚ × ℚ × ℚ) (item : I) : ℕ :=
  get_child_idx_at_pos
    (decide (cen.1 < (CentredItem.centre item).1))
    (decide (cen.2.1 < (CentredItem.centre item).2.1))
    (decide (cen.2.2 < (CentredItem.centre item).2.2))

/-- Increment slot `idx` of the per-octant counter array `result[idx] += 1`. -/
def bump (l : List ℕ) (idx : ℕ) : List ℕ := l.set idx (l.getD idx 0 + 1)

/-- The `for item in old_d { ... }` loop of
`ManagedOctree::move_to_existing_children`: each item is routed to its octant;
if a child exists there the item is added to that child, otherwise it is
re-added to the node itself and the octant's counter is incremented. -/
def move_loop (cen : ℚ × ℚ × ℚ) :
    List I → ManagedOctree D → List ℕ → ManagedOctree D × List ℕ
  | [], t, res => (t, res)
  | item :: rest, t, res =>
    let idx := route cen item
    match children_at t idx with
    | some child => move_loop cen rest (set_child_slot t idx (some (madd child item))) res
    | none => move_loop cen rest (madd t item) (bump res idx)

/-- Model of `ManagedOctree::move_to_existing_children`: the collection is
swapped out for an empty one (the cached `len` is left untouched by the swap,
as in the source) and every item of the old collection is processed by the
loop. -/
def move_to_existing_children (t : ManagedOctree D) :
    ManagedOctree D × List ℕ :=
  let d := t.get_data
  let old_d := d.data
  let t0 := set_data t { d with data := (OctreeCollection.empty : D) }
  move_loop d.centre (OctreeCollection.toList old_d) t0
    (List.replicate 8 0)

/-- Model of `ManagedOctree::get_child_centre_and_half_length_at_pos`. -/
def get_child_centre_and_half_length_at_pos (t : ManagedOctree D)
    (pos_x pos_y pos_z : Bool) : (ℚ × ℚ × ℚ) × ℚ :=
  let cx := t.get_data.centre.1
  let cy := t.get_data.centre.2.1
  let cz := t.get_data.centre.2.2
  let hhl := t.get_data.half_length / (1 + 1)
  match pos_x, pos_y, pos_z with
  | false, false, false => ((cx - hhl, cy - hhl, cz - hhl), hhl)
  | false, false, true => ((cx - hhl, cy - hhl, cz + hhl), hhl)
  | false, true, false => ((cx - hhl, cy + hhl, cz - hhl), hhl)
  | false, true, true => ((cx - hhl, cy + hhl, cz + hhl), hhl)
  | true, false, false => ((cx + hhl, cy - hhl, cz - hhl), hhl)
  | true, false, true => ((cx + hhl, cy - hhl, cz + hhl), hhl)
  | true, true, false => ((cx + hhl, cy + hhl, cz - hhl), hhl)
  | true, true, true => ((cx + hhl, cy + hhl, cz + hhl), hhl)

/-- Insert a `(bucket index, count)` pair into a list sorted descending by
count, keeping the descending order. -/
def insert_desc (p : ℕ × ℕ) : List (ℕ × ℕ) → List (ℕ × ℕ)
  | [] => [p]
  | q :: rest => if p.2 ≤ q.2 then q :: insert_desc p rest else p :: q :: rest

/-- Insertion sort, descending by count. -/
def isort_desc : List (ℕ × ℕ) → List (ℕ × ℕ)
  | [] => []
  | p :: rest => insert_desc p (isort_desc rest)

/-- Model of `ManagedOctree::sort_bucket_sizes`: enumerate the counter array
and sort descending by count.  The source uses `sort_unstable_by`, whose
order among equal counts is unspecified; this model refines it to a
deterministic insertion sort (ties keep the lower octant index first). -/
def sort_bucket_sizes (sizes : List ℕ) : List (ℕ × ℕ) :=
  isort_desc sizes.enum

/-- The child-creation loop of `ManagedOctree::rebalance`.  `none` models a
panic (the `unwrap` on `add_child`, or `with_drop_below_size` being handed a
zero).  The loop breaks as soon as the running size estimate drops to
`max_size` or below. -/
def rebalance_loop :
    List (ℕ × ℕ) → ManagedOctree D → ℕ → Option (ManagedOctree D)
  | [], t, _ => some t
  | (max_idx, max_val) :: rest, t, new_size =>
    match get_child_pos_at_idx max_idx with
    | none => none
    | some (px, py, pz) =>
      let ch := get_child_centre_and_half_length_at_pos t px py pz
      match with_drop_below_size
          (with_max_size (new_managed (D := D) (I := I) ch.1 ch.2)
            t.get_data.max_size)
          t.get_data.drop_below_size with
      | none => none
      | some child =>
        match add_child t max_idx child with
        | (_, some _) => none
        | (t', none) =>
          let new_size' := new_size - max_val
          if new_size' ≤ t'.get_data.max_size then some t'
          else rebalance_loop rest t' new_size'

/-- Model of `ManagedOctree::rebalance`. -/
def rebalance (t : ManagedOctree D) : Option (ManagedOctree D) :=
  let r1 := move_to_existing_children t
  let t1 := r1.1
  if OctreeCollection.len (I := I) t1.get_data.data ≤ t1.get_data.max_size then
    some t1
  else
    match rebalance_loop (sort_bucket_sizes r1.2) t1
        (OctreeCollection.len (I := I) t1.get_data.data) with
    | none => none
    | some t2 => some (move_to_existing_children t2).1

end Octree

/-! ## Basic lemmas about the node structure -/

namespace Octree

variable {D : Type}

theorem children_at_oob (t : Octree D) {j : ℕ} (hj : 8 ≤ j) :
    children_at t j = none := by
  cases t
  rcases j with _ | _ | _ | _ | _ | _ | _ | _ | j
  all_goals first | omega | rfl

theorem set_child_slot_oob (t : Octree D) {i : ℕ} (hi : 8 ≤ i)
    (v : Option (Octree D)) : set_child_slot t i v = t := by
  cases t
  rcases i with _ | _ | _ | _ | _ | _ | _ | _ | i
  all_goals first | omega | rfl

theorem children_at_set_self (t : Octree D) {i : ℕ} (hi : i < 8)
    (v : Option (Octree D)) : children_at (set_child_slot t i v) i = v := by
  cases t
  interval_cases i <;> rfl

theorem children_at_set_other (t : Octree D) {i j : ℕ} (hij : j ≠ i)
    (v : Option (Octree D)) :
    children_at (set_child_slot t i v) j = children_at t j := by
  by_cases hj : j < 8
  · by_cases hi : i < 8
    · cases t
      interval_cases i <;> interval_cases j <;> first | omega | rfl
    · rw [set_child_slot_oob t (Nat.le_of_not_lt hi)]
  · rw [children_at_oob _ (Nat.le_of_not_lt hj),
      children_at_oob _ (Nat.le_of_not_lt hj)]

theorem children_at_set (t : Octree D) (i j : ℕ) (v : Option (Octree D)) :
    children_at (set_child_slot t i v) j =
      if j = i ∧ j < 8 then v else children_at t j := by
  split_ifs with h
  · obtain ⟨rfl, hj⟩ := h
    exact children_at_set_self t hj v
  · rw [not_and_or] at h
    rcases h with h | h
    · exact children_at_set_other t h v
    · have hj : 8 ≤ j := Nat.le_of_not_lt h
      by_cases hij : j = i
      · subst hij
        rw [set_child_slot_oob t hj]
      · exact children_at_set_other t hij v

@[simp] theorem get_data_set_data (t : Octree D) (d : D) :
    get_data (set_data t d) = d := by cases t; rfl

@[simp] theorem get_data_set_child_slot (t : Octree D) (i : ℕ) (v : Option (Octree D)) :
    get_data (set_child_slot t i v) = get_data t := by
  cases t
  rcases i with _ | _ | _ | _ | _ | _ | _ | _ | i <;> rfl

@[simp] theorem children_at_set_data (t : Octree D) (d : D) (j : ℕ) :
    children_at (set_data t d) j = children_at t j := by
  cases t
  rcases j with _ | _ | _ | _ | _ | _ | _ | _ | j <;> rfl

theorem get_child_idx_at_pos_lt_8 (px py pz : Bool) :
    get_child_idx_at_pos px py pz < 8 := by
  cases px <;> cases py <;> cases pz <;> simp [get_child_idx_at_pos]

theorem get_child_pos_at_idx_get_child_idx_at_pos (px py pz : Bool) :
    get_child_pos_at_idx (get_child_idx_at_pos px py pz) = some (px, py, pz) := by
  cases px <;> cases py <;> cases pz <;> rfl

variable {I : Type} [OctreeCollection D I] [CentredItem I]

theorem route_lt_8 (cen : ℚ × ℚ × ℚ) (item : I) : route cen item < 8 :=
  get_child_idx_at_pos_lt_8 _ _ _

end Octree

/-! ## Claim theorems: node-level operations -/

open Octree OctreeCollection

/-- C8: `add_child` returns `OutOfBoundsIdx` when `idx ≥ 8`, `AlreadyAdded`
when the slot at a valid `idx` is occupied (leaving the node unchanged in both
error cases), and otherwise installs the child at `idx`, where it is then
readable. -/
theorem add_child_spec {D : Type} (t : Octree D) (idx : ℕ) (child : Octree D) :
    (8 ≤ idx → add_child t idx child = (t, some .OutOfBoundsIdx)) ∧
    (idx < 8 → (children_at t idx).isSome →
      add_child t idx child = (t, some .AlreadyAdded)) ∧
    (idx < 8 → children_at t idx = none →
      (add_child t idx child).2 = none ∧
      get_child (add_child t idx child).1 idx = some child) := by
  refine ⟨fun h => ?_, fun h hocc => ?_, fun h hfree => ?_⟩
  · simp [add_child, h]
  · simp [add_child, hocc, Nat.not_le.mpr h]
  · have hnle : ¬ 8 ≤ idx := Nat.not_le.mpr h
    refine ⟨by simp [add_child, hnle, hfree], ?_⟩
    simp only [add_child, if_neg hnle, hfree, Option.isSome_none, Bool.false_eq_true,
      if_false]
    simp [get_child, hnle, children_at_set, h]

/-- Witness for `add_child_spec` at a fresh node, index 0. -/
theorem add_child_spec_witness :
    ((0 : ℕ) < 8 ∧
      children_at (new_with_data (D := ℕ) 5) 0 = none) ∧
    (add_child (new_with_data (D := ℕ) 5) 0 (new_with_data 7)).2 = none ∧
    get_child (add_child (new_with_data (D := ℕ) 5) 0 (new_with_data 7)).1 0 =
      some (new_with_data 7) :=
  ⟨⟨by decide, rfl⟩,
    (add_child_spec (new_with_data (D := ℕ) 5) 0 (new_with_data 7)).2.2
      (by decide) rfl⟩

/-- C9: `remove_child` yields exactly what `get_child` saw (the owned child
when present, nothing when the slot is empty or the index is out of range —
out of range additionally leaves the node unchanged and is not an error), and
`get_child` at the same index immediately afterwards yields nothing. -/
theorem remove_child_spec {D : Type} (t : Octree D) (idx : ℕ) :
    (remove_child t idx).2 = get_child t idx ∧
    (8 ≤ idx → remove_child t idx = (t, none)) ∧
    get_child (remove_child t idx).1 idx = none := by
  refine ⟨?_, fun h => ?_, ?_⟩
  · by_cases h : 8 ≤ idx
    · simp [remove_child, get_child, h]
    · simp [remove_child, get_child, h]
  · simp [remove_child, h]
  · by_cases h : 8 ≤ idx
    · simp [remove_child, get_child, h]
    · simp [remove_child, get_child, h, children_at_set, Nat.lt_of_not_le h]

/-- Witness for `remove_child_spec` at an out-of-range index. -/
theorem remove_child_spec_witness :
    (8 ≤ 999 ∧ remove_child (new_with_data (D := ℕ) 5) 999 =
      (new_with_data (D := ℕ) 5, none)) :=
  ⟨by decide, (remove_child_spec (new_with_data (D := ℕ) 5) 999).2.1 (by decide)⟩

/-! ## Claim theorems: geometry -/

/-- Apply `get_child_centre_and_half_length_at_pos` repeatedly along a path of
octant signs, starting from a node with the given centre and half-extent and
re-rooting at the derived geometry each step (exactly how `rebalance` equips
newly created children, whose own children are in turn derived from theirs). -/
def iter_child_geometry (c : ℚ × ℚ × ℚ) (h : ℚ) :
    List (Bool × Bool × Bool) → (ℚ × ℚ × ℚ) × ℚ
  | [] => (c, h)
  | s :: rest =>
    let r := get_child_centre_and_half_length_at_pos
      (new_managed (D := List (ℚ × ℚ × ℚ)) c h) s.1 s.2.1 s.2.2
    iter_child_geometry r.1 r.2 rest

theorem get_data_new_managed {D I : Type} [OctreeCollection D I] [CentredItem I]
    (c : ℚ × ℚ × ℚ) (h : ℚ) :
    (new_managed (D := D) (I := I) c h).get_data =
      { ManagedOctreeData.default D (I := I) with centre := c, half_length := h } :=
  rfl

theorem child_geometry_eval {D I : Type} [OctreeCollection D I] [CentredItem I]
    (c : ℚ × ℚ × ℚ) (h : ℚ) (px py pz : Bool) :
    get_child_centre_and_half_length_at_pos
        (new_managed (D := D) (I := I) c h) px py pz =
      (((if px then c.1 + h / 2 else c.1 - h / 2),
        (if py then c.2.1 + h / 2 else c.2.1 - h / 2),
        (if pz then c.2.2 + h / 2 else c.2.2 - h / 2)), h / 2) := by
  have h2 : h / (1 + 1) = h / 2 := by norm_num
  cases px <;> cases py <;> cases pz <;>
    simp [get_child_centre_and_half_length_at_pos, get_data_new_managed, h2]

/-- C6: the child-geometry computation halves the half-extent exactly and
offsets each centre coordinate by the new half-extent, positively on positive
octant signs and negatively otherwise; iterating it `n` times from half-extent
`H` yields half-extent `H / 2 ^ n`. -/
theorem child_geometry_spec :
    (∀ (c : ℚ × ℚ × ℚ) (h : ℚ) (px py pz : Bool),
      (get_child_centre_and_half_length_at_pos
          (new_managed (D := List (ℚ × ℚ × ℚ)) c h) px py pz).2 = h / 2 ∧
      (get_child_centre_and_half_length_at_pos
          (new_managed (D := List (ℚ × ℚ × ℚ)) c h) px py pz).1 =
        ((if px then c.1 + h / 2 else c.1 - h / 2),
         (if py then c.2.1 + h / 2 else c.2.1 - h / 2),
         (if pz then c.2.2 + h / 2 else c.2.2 - h / 2))) ∧
    (∀ (path : List (Bool × Bool × Bool)) (c : ℚ × ℚ × ℚ) (H : ℚ),
      (iter_child_geometry c H path).2 = H / 2 ^ path.length) := by
  constructor
  · intro c h px py pz
    rw [child_geometry_eval]
    exact ⟨rfl, rfl⟩
  · intro path
    induction path with
    | nil => intro c H; simp [iter_child_geometry]
    | cons s rest ih =>
      intro c H
      simp only [iter_child_geometry, child_geometry_eval, List.length_cons, ih]
      rw [div_div]
      ring_nf

/-! ## Claim theorems: octant routing -/

/-- C7: the octant the redistribution pass assigns to an item is computed by a
strict greater-than comparison against the centre on each axis, so a
coordinate equal to the centre's lands on the negative side of that axis. -/
theorem route_spec {I : Type} [CentredItem I] (cen : ℚ × ℚ × ℚ) (item : I) :
    route cen item < 8 ∧
    get_child_pos_at_idx (route cen item) =
      some (decide (cen.1 < (CentredItem.centre item).1),
        decide (cen.2.1 < (CentredItem.centre item).2.1),
        decide (cen.2.2 < (CentredItem.centre item).2.2)) ∧
    ((CentredItem.centre item).1 = cen.1 →
      (get_child_pos_at_idx (route cen item)).map Prod.fst = some false) ∧
    ((CentredItem.centre item).2.1 = cen.2.1 →
      (get_child_pos_at_idx (route cen item)).map (fun p => p.2.1) = some false) ∧
    ((CentredItem.centre item).2.2 = cen.2.2 →
      (get_child_pos_at_idx (route cen item)).map (fun p => p.2.2) = some false) := by
  refine ⟨route_lt_8 cen item,
    get_child_pos_at_idx_get_child_idx_at_pos _ _ _, fun hx => ?_, fun hy => ?_,
    fun hz => ?_⟩
  · rw [route, get_child_pos_at_idx_get_child_idx_at_pos]
    simp [hx]
  · rw [route, get_child_pos_at_idx_get_child_idx_at_pos]
    simp [hy]
  · rw [route, get_child_pos_at_idx_get_child_idx_at_pos]
    simp [hz]

/-- Witness for `route_spec`: an item lying exactly on the centre on all three
axes is routed to the all-negative octant. -/
theorem route_spec_witness :
    (((CentredItem.centre ((0 : ℚ), (0 : ℚ), (0 : ℚ))).1 = (0 : ℚ)) ∧
      (get_child_pos_at_idx
        (route ((0 : ℚ), (0 : ℚ), (0 : ℚ)) ((0 : ℚ), (0 : ℚ), (0 : ℚ)))).map
          Prod.fst = some false) :=
  ⟨rfl, (route_spec ((0 : ℚ), (0 : ℚ), (0 : ℚ)) ((0 : ℚ), (0 : ℚ), (0 : ℚ))).2.2.1 rfl⟩

/-! ## Lawfulness of the two collection implementations

The crate instantiates its collection abstraction at exactly two types,
`Vec` and `HashMap`.  `LawfulColl` captures the facts both share, phrased
through a conflict predicate: a sequential collection never rejects
(`conflictb` is constantly `false`), an associative one rejects an item
exactly when some stored entry has the same key. -/

class LawfulColl (D I : Type) [OctreeCollection D I] : Type where
  conflictb : I → I → Bool
  conflictb_symm : ∀ i j, conflictb i j = conflictb j i
  toList_empty : OctreeCollection.toList (OctreeCollection.empty : D) = ([] : List I)
  len_toList : ∀ d : D,
    OctreeCollection.len d = (OctreeCollection.toList d).length
  add_eq_none_iff : ∀ (d : D) (i : I),
    OctreeCollection.add d i = none ↔
      ∃ j ∈ OctreeCollection.toList d, conflictb j i = true
  toList_add : ∀ (d : D) (i : I) (d' : D),
    OctreeCollection.add d i = some d' →
      OctreeCollection.toList d' = OctreeCollection.toList d ++ [i]
  toList_clear : ∀ d : D,
    OctreeCollection.toList (OctreeCollection.clear d) = ([] : List I)

instance {T : Type} : LawfulColl (List T) T where
  conflictb _ _ := false
  conflictb_symm _ _ := rfl
  toList_empty := rfl
  len_toList _ := rfl
  add_eq_none_iff d i := by simp [OctreeCollection.add]
  toList_add d i d' h := by
    simp only [OctreeCollection.add, Option.some.injEq] at h
    simpa [OctreeCollection.toList] using h.symm
  toList_clear _ := rfl

instance {K V : Type} [DecidableEq K] : LawfulColl (HashMapModel K V) (K × V) where
  conflictb a b := decide (a.1 = b.1)
  conflictb_symm i j := by simp [eq_comm]
  toList_empty := rfl
  len_toList _ := rfl
  add_eq_none_iff d i := by
    constructor
    · intro h
      simp only [OctreeCollection.add] at h
      split at h
      next hc => exact List.any_eq_true.1 hc
      next hc => exact absurd h (by simp)
    · intro hc
      obtain ⟨e, he, hke⟩ := hc
      have hany : (d.entries.any fun x => decide (x.1 = i.1)) = true :=
        List.any_eq_true.2 ⟨e, he, by simpa using hke⟩
      simp [OctreeCollection.add, hany]
  toList_add d i d' h := by
    simp only [OctreeCollection.add] at h
    split at h
    · exact absurd h (by simp)
    · cases h
      rfl
  toList_clear _ := rfl

namespace Octree

variable {D I : Type} [OctreeCollection D I] [CentredItem I] [LawfulColl D I]

/-- The list of items held directly by a node's own collection. -/
def own_list (t : ManagedOctree D) : List I :=
  OctreeCollection.toList t.get_data.data

/-- Whether item `i` conflicts with some element of `l` (for an associative
collection: some element of `l` has `i`'s key). -/
def conflicts (l : List I) (i : I) : Bool :=
  l.any (fun j => LawfulColl.conflictb (D := D) j i)

/-- A list of items no two of which conflict (for an associative collection:
pairwise distinct keys).  Every list of items drawn from a real `HashMap` or
`Vec` satisfies this. -/
def pairwise_ok (l : List I) : Prop :=
  l.Pairwise (fun a b => LawfulColl.conflictb (D := D) a b = false)

/-- The geometry/policy fields of two payloads agree (everything except the
cached count and the collection). -/
def same_config (a b : ManagedOctreeData D) : Prop :=
  a.centre = b.centre ∧ a.half_length = b.half_length ∧
    a.max_size = b.max_size ∧ a.drop_below_size = b.drop_below_size

theorem same_config_refl (a : ManagedOctreeData D) : same_config a a :=
  ⟨rfl, rfl, rfl, rfl⟩

theorem same_config_trans {a b c : ManagedOctreeData D}
    (h1 : same_config a b) (h2 : same_config b c) : same_config a c :=
  ⟨h1.1.trans h2.1, h1.2.1.trans h2.2.1, h1.2.2.1.trans h2.2.2.1,
    h1.2.2.2.trans h2.2.2.2⟩

theorem own_list_madd (t : ManagedOctree D) (i : I) :
    own_list (I := I) (madd t i) =
      if conflicts (D := D) (own_list (I := I) t) i = true then own_list (I := I) t
      else own_list (I := I) t ++ [i] := by
  unfold madd own_list
  cases h : OctreeCollection.add t.get_data.data i with
  | none =>
    rw [if_pos]
    · simp [h]
    · obtain ⟨j, hj, hc⟩ := (LawfulColl.add_eq_none_iff _ i).1 h
      exact List.any_eq_true.2 ⟨j, hj, hc⟩
  | some d' =>
    rw [if_neg]
    · simp [h, LawfulColl.toList_add _ i d' h]
    · intro hc
      obtain ⟨j, hj, hcj⟩ := List.any_eq_true.1 hc
      exact absurd ((LawfulColl.add_eq_none_iff _ i).2 ⟨j, hj, hcj⟩) (by simp [h])

theorem own_list_madd_of_not_conflicts (t : ManagedOctree D) (i : I)
    (h : conflicts (D := D) (own_list (I := I) t) i = false) :
    own_list (I := I) (madd t i) = own_list (I := I) t ++ [i] := by
  rw [own_list_madd, if_neg (by simp [h])]

@[simp] theorem children_at_madd (t : ManagedOctree D) (i : I) (j : ℕ) :
    children_at (madd t i) j = children_at t j := by
  unfold madd
  simp

@[simp] theorem len_madd (t : ManagedOctree D) (i : I) :
    (madd t i).get_data.len = t.get_data.len + 1 := by
  unfold madd
  simp

theorem same_config_madd (t : ManagedOctree D) (i : I) :
    same_config ((madd t i).get_data) t.get_data := by
  unfold madd
  exact ⟨by simp, by simp, by simp, by simp⟩

end Octree

/-! ## Subtree item multisets -/

namespace Octree

variable {D I : Type} [OctreeCollection D I] [CentredItem I]

mutual

/-- All positioned items held in a node's subtree: its own collection plus,
recursively, every descendant's collection. -/
def subtree_items : ManagedOctree D → List I
  | .mk c0 c1 c2 c3 c4 c5 c6 c7 d =>
    OctreeCollection.toList d.data ++ osubtree c0 ++ osubtree c1 ++ osubtree c2
      ++ osubtree c3 ++ osubtree c4 ++ osubtree c5 ++ osubtree c6 ++ osubtree c7

/-- Items of an optional subtree. -/
def osubtree : Option (ManagedOctree D) → List I
  | none => []
  | some t => subtree_items t

end

/-- Items held in the children subtrees (everything strictly below the node). -/
def children_items (t : ManagedOctree D) : List I :=
  osubtree (children_at t 0) ++ osubtree (children_at t 1)
    ++ osubtree (children_at t 2) ++ osubtree (children_at t 3)
    ++ osubtree (children_at t 4) ++ osubtree (children_at t 5)
    ++ osubtree (children_at t 6) ++ osubtree (children_at t 7)

theorem subtree_items_eq_own_append (t : ManagedOctree D) :
    subtree_items t = own_list (I := I) t ++ children_items t := by
  cases t
  simp [subtree_items, children_items, own_list, children_at, get_data]

end Octree

/-! ## The redistribution pass, in closed form -/

namespace Octree

open List

variable {D I : Type} [OctreeCollection D I] [CentredItem I] [LawfulColl D I]

/-- An item is kept at the node by the redistribution pass exactly when no
child exists at its octant. -/
def keptb (cen : ℚ × ℚ × ℚ) (t : ManagedOctree D) (i : I) : Bool :=
  !(children_at t (route cen i)).isSome

theorem conflicts_append (l1 l2 : List I) (i : I) :
    conflicts (D := D) (l1 ++ l2) i =
      (conflicts (D := D) l1 i || conflicts (D := D) l2 i) := by
  simp [conflicts]

theorem pairwise_ok_cons {i : I} {l : List I} :
    pairwise_ok (D := D) (i :: l) ↔
      (∀ b ∈ l, LawfulColl.conflictb (D := D) i b = false) ∧
        pairwise_ok (D := D) l := by
  simp [pairwise_ok, List.pairwise_cons]

@[simp] theorem own_list_set_child_slot (t : ManagedOctree D) (i : ℕ)
    (v : Option (ManagedOctree D)) :
    own_list (I := I) (set_child_slot t i v) = own_list (I := I) t := by
  simp [own_list]

theorem keptb_congr (cen : ℚ × ℚ × ℚ) {t t' : ManagedOctree D}
    (h : ∀ j, (children_at t' j).isSome = (children_at t j).isSome) :
    keptb (D := D) (I := I) cen t' = keptb (D := D) (I := I) cen t :=
  funext fun i => by simp [keptb, h]

@[simp] theorem length_bump (l : List ℕ) (i : ℕ) : (bump l i).length = l.length := by
  simp [bump]

theorem getD_bump_self (l : List ℕ) {i : ℕ} (h : i < l.length) :
    (bump l i).getD i 0 = l.getD i 0 + 1 := by
  simp [bump, List.getD_eq_getElem?_getD, List.getElem?_set_self, h]

theorem getD_bump_other (l : List ℕ) {i j : ℕ} (h : j ≠ i) :
    (bump l i).getD j 0 = l.getD j 0 := by
  simp [bump, List.getD_eq_getElem?_getD, List.getElem?_set_ne (Ne.symm h)]

theorem sum_bump (l : List ℕ) : ∀ {i : ℕ}, i < l.length → (bump l i).sum = l.sum + 1 := by
  induction l with
  | nil => intro i h; simp at h
  | cons a tl ih =>
    intro i h
    cases i with
    | zero => simp [bump, List.getD_cons_zero]; omega
    | succ n =>
      have hn : n < tl.length := by simpa using h
      have : bump (a :: tl) (n + 1) = a :: bump tl n := by
        simp [bump, List.getD_cons_succ]
      rw [this]
      simp only [List.sum_cons, ih hn]
      omega

/-- Closed-form description of the item loop of `move_to_existing_children`,
for item lists without internal conflicts (which is every list drawn from a
real collection): child existence is unchanged, the node keeps exactly the
items whose octant has no child (appended to its collection in order), a child
at octant `j` receives exactly the items routed to `j` that do not conflict
with its prior contents (the rest are silently dropped), children's geometry,
policy and own children are untouched, and the counters record the kept items
per octant. -/
theorem move_loop_spec (cen : ℚ × ℚ × ℚ) (items : List I) :
    ∀ (t : ManagedOctree D) (res : List ℕ),
      pairwise_ok (D := D) items →
      (∀ i ∈ items, conflicts (D := D) (own_list (I := I) t) i = false) →
      res.length = 8 →
      (∀ j, (children_at (move_loop cen items t res).1 j).isSome
          = (children_at t j).isSome) ∧
      same_config (move_loop cen items t res).1.get_data t.get_data ∧
      own_list (I := I) (move_loop cen items t res).1
        = own_list (I := I) t ++ items.filter (keptb cen t) ∧
      (∀ j c, children_at t j = some c →
        ∃ c', children_at (move_loop cen items t res).1 j = some c' ∧
          own_list (I := I) c' = own_list (I := I) c ++
            ((items.filter (fun i => decide (route cen i = j))).filter
              (fun i => !(conflicts (D := D) (own_list (I := I) c) i))) ∧
          (∀ k, children_at c' k = children_at c k) ∧
          same_config c'.get_data c.get_data) ∧
      (move_loop cen items t res).2.length = 8 ∧
      (∀ j, (move_loop cen items t res).2.getD j 0 = res.getD j 0 +
        ((items.filter (keptb cen t)).filter
          (fun i => decide (route cen i = j))).length) ∧
      (move_loop cen items t res).2.sum
        = res.sum + (items.filter (keptb cen t)).length := by
  induction items with
  | nil =>
    intro t res _ _ hres
    refine ⟨fun j => rfl, same_config_refl _, by simp [move_loop], ?_, hres, ?_, ?_⟩
    · intro j c hc
      exact ⟨c, hc, by simp [move_loop], fun k => rfl, same_config_refl _⟩
    · intro j
      simp [move_loop]
    · simp [move_loop]
  | cons i rest ih =>
    intro t res hPW hOwn hres
    obtain ⟨hPWhead, hPWrest⟩ := pairwise_ok_cons.1 hPW
    have hidx : route cen i < 8 := route_lt_8 cen i
    cases hslot : children_at t (route cen i) with
    | some child =>
      have hloop : move_loop cen (i :: rest) t res =
          move_loop cen rest
            (set_child_slot t (route cen i) (some (madd child i))) res := by
        rw [move_loop, hslot]
      have hsame₂ : ∀ j,
          (children_at (set_child_slot t (route cen i) (some (madd child i))) j).isSome
            = (children_at t j).isSome := by
        intro j
        rw [children_at_set]
        split_ifs with hj
        · rw [hj.1, hslot]
          rfl
        · rfl
      have hkept₂ := keptb_congr (D := D) cen hsame₂
      have hOwn₂ : ∀ r ∈ rest,
          conflicts (D := D)
            (own_list (I := I)
              (set_child_slot t (route cen i) (some (madd child i)))) r = false := by
        intro r hr
        rw [own_list_set_child_slot]
        exact hOwn r (List.mem_cons_of_mem _ hr)
      obtain ⟨ih0, ihcfg, ihown, ihch, ihreslen, ihres, ihsum⟩ :=
        ih (set_child_slot t (route cen i) (some (madd child i))) res hPWrest hOwn₂ hres
      have hkepti : keptb (D := D) cen t i = false := by
        simp [keptb, hslot]
      refine ⟨?_, ?_, ?_, ?_, ?_, ?_, ?_⟩
      · intro j
        rw [hloop, ih0 j, hsame₂ j]
      · rw [hloop]
        exact same_config_trans ihcfg
          (by rw [get_data_set_child_slot]; exact same_config_refl _)
      · rw [hloop, ihown, own_list_set_child_slot, hkept₂,
          List.filter_cons_of_neg (by simp [hkepti])]
      · intro j c hc
        rw [hloop]
        by_cases hj : j = route cen i
        · have hcchild : c = child := by
            rw [hj] at hc
            exact (Option.some.inj (hslot.symm.trans hc)).symm
          subst hcchild
          obtain ⟨c', hc'eq, hc'own, hc'ch, hc'cfg⟩ :=
            ihch j (madd c i)
              (by rw [hj]; exact children_at_set_self t hidx _)
          refine ⟨c', hc'eq, ?_, fun k => (hc'ch k).trans (children_at_madd _ _ _),
            same_config_trans hc'cfg (same_config_madd _ _)⟩
          rw [hc'own, List.filter_cons_of_pos (by simp [hj])]
          cases hconf : conflicts (D := D) (own_list (I := I) c) i with
          | true =>
            rw [List.filter_cons_of_neg (by simp [hconf]),
              own_list_madd, if_pos hconf]
          | false =>
            rw [List.filter_cons_of_pos (by simp [hconf]),
              own_list_madd_of_not_conflicts _ _ hconf]
            have hfc : ∀ x ∈ rest.filter (fun r => decide (route cen r = j)),
                (!(conflicts (D := D)
                  (own_list (I := I) c ++ [i]) x))
                  = (!(conflicts (D := D) (own_list (I := I) c) x)) := by
              intro x hx
              have hxr : x ∈ rest := List.mem_of_mem_filter hx
              rw [conflicts_append]
              have hci : conflicts (D := D) [i] x = false := by
                simp [conflicts, hPWhead x hxr]
              rw [hci, Bool.or_false]
            rw [List.filter_congr hfc, List.append_assoc]
            rfl
        · have hc₂ : children_at
              (set_child_slot t (route cen i) (some (madd child i))) j = some c := by
            rw [children_at_set_other t hj]
            exact hc
          obtain ⟨c', hc'eq, hc'own, hc'ch, hc'cfg⟩ := ihch j c hc₂
          refine ⟨c', hc'eq, ?_, hc'ch, hc'cfg⟩
          rw [hc'own, List.filter_cons_of_neg (by simp [Ne.symm hj])]
      · rw [hloop]
        exact ihreslen
      · intro j
        rw [hloop, ihres j, hkept₂, List.filter_cons_of_neg (by simp [hkepti])]
      · rw [hloop, ihsum, hkept₂, List.filter_cons_of_neg (by simp [hkepti])]
    | none =>
      have hloop : move_loop cen (i :: rest) t res =
          move_loop cen rest (madd t i) (bump res (route cen i)) := by
        rw [move_loop, hslot]
      have hconfi : conflicts (D := D) (own_list (I := I) t) i = false :=
        hOwn i (List.mem_cons_self i rest)
      have hsame₂ : ∀ j, (children_at (madd t i) j).isSome
          = (children_at t j).isSome := by
        intro j
        rw [children_at_madd]
      have hkept₂ := keptb_congr (D := D) cen hsame₂
      have hOwn₂ : ∀ r ∈ rest,
          conflicts (D := D) (own_list (I := I) (madd t i)) r = false := by
        intro r hr
        rw [own_list_madd_of_not_conflicts _ _ hconfi, conflicts_append]
        have h1 : conflicts (D := D) (own_list (I := I) t) r = false :=
          hOwn r (List.mem_cons_of_mem _ hr)
        have h2 : conflicts (D := D) [i] r = false := by
          simp [conflicts, hPWhead r hr]
        rw [h1, h2, Bool.or_false]
      obtain ⟨ih0, ihcfg, ihown, ihch, ihreslen, ihres, ihsum⟩ :=
        ih (madd t i) (bump res (route cen i)) hPWrest hOwn₂
          (by rw [length_bump, hres])
      have hkepti : keptb (D := D) cen t i = true := by
        simp [keptb, hslot]
      refine ⟨?_, ?_, ?_, ?_, ?_, ?_, ?_⟩
      · intro j
        rw [hloop, ih0 j, hsame₂ j]
      · rw [hloop]
        exact same_config_trans ihcfg (same_config_madd _ _)
      · rw [hloop, ihown, own_list_madd_of_not_conflicts _ _ hconfi, hkept₂,
          List.filter_cons_of_pos hkepti, List.append_assoc]
        rfl
      · intro j c hc
        rw [hloop]
        have hjne : route cen i ≠ j := by
          intro hj
          rw [hj, hc] at hslot
          cases hslot
        obtain ⟨c', hc'eq, hc'own, hc'ch, hc'cfg⟩ :=
          ihch j c (by rw [children_at_madd]; exact hc)
        refine ⟨c', hc'eq, ?_, hc'ch, hc'cfg⟩
        rw [hc'own, List.filter_cons_of_neg (by simp [hjne])]
      · rw [hloop]
        exact ihreslen
      · intro j
        rw [hloop, ihres j, hkept₂, List.filter_cons_of_pos hkepti]
        by_cases hj : route cen i = j
        · subst hj
          rw [List.filter_cons_of_pos (by simp), getD_bump_self res (hres ▸ hidx)]
          simp [List.length_cons]
          omega
        · rw [List.filter_cons_of_neg (by simp [hj]), getD_bump_other res (Ne.symm hj)]
      · rw [hloop, ihsum, hkept₂, List.filter_cons_of_pos hkepti,
          sum_bump res (hres ▸ hidx)]
        simp [List.length_cons]
        omega

theorem move_to_existing_children_eq (t : ManagedOctree D) :
    move_to_existing_children t =
      move_loop t.get_data.centre (own_list (I := I) t)
        (set_data t { t.get_data with data := (OctreeCollection.empty : D) })
        (List.replicate 8 0) := rfl

theorem getD_replicate_zero (j : ℕ) : (List.replicate 8 (0 : ℕ)).getD j 0 = 0 := by
  rcases j with _ | _ | _ | _ | _ | _ | _ | _ | j <;> rfl

/-- The redistribution pass (`move_to_existing_children`), in closed form. -/
theorem move_pass_spec (t : ManagedOctree D)
    (hPW : pairwise_ok (D := D) (own_list (I := I) t)) :
    (∀ j, (children_at (move_to_existing_children t).1 j).isSome
        = (children_at t j).isSome) ∧
    same_config (move_to_existing_children t).1.get_data t.get_data ∧
    own_list (I := I) (move_to_existing_children t).1
      = (own_list (I := I) t).filter (keptb t.get_data.centre t) ∧
    (∀ j c, children_at t j = some c →
      ∃ c', children_at (move_to_existing_children t).1 j = some c' ∧
        own_list (I := I) c' = own_list (I := I) c ++
          (((own_list (I := I) t).filter
              (fun i => decide (route t.get_data.centre i = j))).filter
            (fun i => !(conflicts (D := D) (own_list (I := I) c) i))) ∧
        (∀ k, children_at c' k = children_at c k) ∧
        same_config c'.get_data c.get_data) ∧
    (move_to_existing_children t).2.length = 8 ∧
    (∀ j, (move_to_existing_children t).2.getD j 0 =
      (((own_list (I := I) t).filter (keptb t.get_data.centre t)).filter
        (fun i => decide (route t.get_data.centre i = j))).length) ∧
    (move_to_existing_children t).2.sum
      = ((own_list (I := I) t).filter (keptb t.get_data.centre t)).length := by
  have ht0data : (set_data t
      { t.get_data with data := (OctreeCollection.empty : D) }).get_data =
      { t.get_data with data := (OctreeCollection.empty : D) } :=
    get_data_set_data _ _
  have ht0own : own_list (I := I) (set_data t
      { t.get_data with data := (OctreeCollection.empty : D) }) = [] := by
    rw [own_list, ht0data]
    exact LawfulColl.toList_empty (D := D)
  have ht0slots : ∀ j, (children_at (set_data t
      { t.get_data with data := (OctreeCollection.empty : D) }) j)
      = children_at t j := fun j => children_at_set_data t _ j
  have ht0kept : keptb (D := D) (I := I) t.get_data.centre
      (set_data t { t.get_data with data := (OctreeCollection.empty : D) })
      = keptb t.get_data.centre t :=
    keptb_congr t.get_data.centre fun j => by rw [ht0slots j]
  have hOwn0 : ∀ i ∈ own_list (I := I) t,
      conflicts (D := D) (own_list (I := I) (set_data t
        { t.get_data with data := (OctreeCollection.empty : D) })) i = false := by
    intro i _
    rw [ht0own]
    rfl
  obtain ⟨h0, hcfg, hown, hch, hreslen, hres, hsum⟩ :=
    move_loop_spec t.get_data.centre (own_list (I := I) t)
      (set_data t { t.get_data with data := (OctreeCollection.empty : D) })
      (List.replicate 8 0) hPW hOwn0 (by simp)
  rw [move_to_existing_children_eq]
  refine ⟨fun j => (h0 j).trans (by rw [ht0slots j]), ?_, ?_, ?_, hreslen, ?_, ?_⟩
  · exact same_config_trans hcfg (by rw [ht0data]; exact ⟨rfl, rfl, rfl, rfl⟩)
  · rw [hown, ht0own, ht0kept, List.nil_append]
  · intro j c hc
    exact hch j c (by rw [ht0slots j]; exact hc)
  · intro j
    rw [hres j, ht0kept, getD_replicate_zero, Nat.zero_add]
  · rw [hsum, ht0kept]
    simp

/-! ## The bucket sort -/

theorem insert_desc_perm (p : ℕ × ℕ) (l : List (ℕ × ℕ)) :
    List.Perm (insert_desc p l) (p :: l) := by
  induction l with
  | nil => exact List.Perm.refl _
  | cons q rest ih =>
    rw [insert_desc]
    split_ifs with h
    · exact ((ih.cons q).trans (List.Perm.swap p q rest))
    · exact List.Perm.refl _

theorem isort_desc_perm (l : List (ℕ × ℕ)) : List.Perm (isort_desc l) l := by
  induction l with
  | nil => exact List.Perm.refl _
  | cons p rest ih => exact (insert_desc_perm p (isort_desc rest)).trans (ih.cons p)

theorem insert_desc_sorted (p : ℕ × ℕ) (l : List (ℕ × ℕ))
    (h : l.Pairwise (fun a b => b.2 ≤ a.2)) :
    (insert_desc p l).Pairwise (fun a b => b.2 ≤ a.2) := by
  induction l with
  | nil => simp [insert_desc]
  | cons q rest ih =>
    rw [insert_desc]
    obtain ⟨hq, hrest⟩ := List.pairwise_cons.1 h
    split_ifs with hle
    · rw [List.pairwise_cons]
      refine ⟨?_, ih hrest⟩
      intro b hb
      rcases List.mem_cons.1 ((insert_desc_perm p rest).mem_iff.1 hb) with rfl | hbr
      · exact hle
      · exact hq b hbr
    · rw [List.pairwise_cons]
      refine ⟨?_, h⟩
      intro b hb
      rcases List.mem_cons.1 hb with rfl | hbr
      · omega
      · exact le_trans (hq b hbr) (by omega)

theorem isort_desc_sorted (l : List (ℕ × ℕ)) :
    (isort_desc l).Pairwise (fun a b => b.2 ≤ a.2) := by
  induction l with
  | nil => simp [isort_desc]
  | cons p rest ih => exact insert_desc_sorted p (isort_desc rest) ih

theorem sort_bucket_sizes_perm (res : List ℕ) :
    List.Perm (sort_bucket_sizes res) res.enum := isort_desc_perm _

theorem sort_bucket_sizes_sorted (res : List ℕ) :
    (sort_bucket_sizes res).Pairwise (fun a b => b.2 ≤ a.2) := isort_desc_sorted _

theorem mem_sort_bucket_sizes {res : List ℕ} {p : ℕ × ℕ}
    (h : p ∈ sort_bucket_sizes res) :
    p.1 < res.length ∧ res.getD p.1 0 = p.2 := by
  have henum : p ∈ res.enum := (sort_bucket_sizes_perm res).mem_iff.1 h
  have hget : res.get? p.1 = some p.2 := List.mem_enum_iff_get?.1 henum
  have hlt : p.1 < res.length := by
    by_contra hge
    rw [List.get?_eq_none.2 (Nat.le_of_not_lt hge)] at hget
    cases hget
  refine ⟨hlt, ?_⟩
  rw [List.getD_eq_getElem?_getD, ← List.get?_eq_getElem?, hget]
  rfl

theorem sort_bucket_sizes_nodup_fst (res : List ℕ) :
    ((sort_bucket_sizes res).map Prod.fst).Nodup := by
  have hperm := (sort_bucket_sizes_perm res).map Prod.fst
  rw [List.Perm.nodup_iff hperm, List.enum_map_fst]
  exact List.nodup_range _

theorem sort_bucket_sizes_sum (res : List ℕ) :
    ((sort_bucket_sizes res).map Prod.snd).sum = res.sum := by
  rw [((sort_bucket_sizes_perm res).map Prod.snd).sum_eq, List.enum_map_snd]

theorem sort_bucket_sizes_length (res : List ℕ) :
    (sort_bucket_sizes res).length = res.length := by
  rw [(sort_bucket_sizes_perm res).length_eq, List.enum_length]

/-! ## The subdivision loop of `rebalance` -/

/-- The child node the subdivision loop of `rebalance` creates at octant `j`
of `t`: geometry from `get_child_centre_and_half_length_at_pos`, `max_size`
and `drop_below_size` copied from `t`.  (The `j ≥ 8` branch is unreachable:
the loop only visits enumerated octants `0`–`7`.) -/
def new_child_at (t : ManagedOctree D) (j : ℕ) : ManagedOctree D :=
  match get_child_pos_at_idx j with
  | none => new_managed (D := D) (I := I) (0, 0, 0) 1
  | some pos =>
    let ch := get_child_centre_and_half_length_at_pos t pos.1 pos.2.1 pos.2.2
    let c1 := with_max_size (new_managed (D := D) (I := I) ch.1 ch.2)
      t.get_data.max_size
    set_data c1 { c1.get_data with drop_below_size := t.get_data.drop_below_size }

/-- Attach the loop's new children at the given octants, in order. -/
def add_children : ManagedOctree D → List ℕ → ManagedOctree D
  | t, [] => t
  | t, j :: js => add_children (set_child_slot t j (some (new_child_at t j))) js

theorem gcchl_congr {t1 t2 : ManagedOctree D} (h : t1.get_data = t2.get_data)
    (px py pz : Bool) :
    get_child_centre_and_half_length_at_pos t1 px py pz =
      get_child_centre_and_half_length_at_pos t2 px py pz := by
  unfold get_child_centre_and_half_length_at_pos
  rw [h]

theorem new_child_at_congr {t1 t2 : ManagedOctree D}
    (h : t1.get_data = t2.get_data) (j : ℕ) :
    new_child_at (I := I) t1 j = new_child_at (I := I) t2 j := by
  unfold new_child_at
  cases hp : get_child_pos_at_idx j with
  | none => rfl
  | some pos =>
    dsimp only
    rw [gcchl_congr h, h]

theorem get_data_add_children (t : ManagedOctree D) (js : List ℕ) :
    (add_children (I := I) t js).get_data = t.get_data := by
  induction js generalizing t with
  | nil => rfl
  | cons k ks ih => rw [add_children, ih, get_data_set_child_slot]

theorem children_at_add_children (t : ManagedOctree D) (js : List ℕ)
    (hjs : ∀ j ∈ js, j < 8) (j : ℕ) :
    children_at (add_children (I := I) t js) j =
      if j ∈ js then some (new_child_at (I := I) t j) else children_at t j := by
  induction js generalizing t with
  | nil => simp [add_children]
  | cons k ks ih =>
    rw [add_children, ih _ (fun x hx => hjs x (List.mem_cons_of_mem _ hx))]
    have hnc : new_child_at (I := I)
        (set_child_slot t k (some (new_child_at (I := I) t k))) j
          = new_child_at (I := I) t j :=
      new_child_at_congr (get_data_set_child_slot t k _) j
    by_cases hks : j ∈ ks
    · rw [if_pos hks, if_pos (List.mem_cons_of_mem _ hks), hnc]
    · rw [if_neg hks, children_at_set]
      by_cases hk : j = k
      · subst hk
        rw [if_pos ⟨rfl, hjs j (List.mem_cons_self j ks)⟩,
          if_pos (List.mem_cons_self j ks)]
      · rw [if_neg (by simp [hk]), if_neg (by simp [hk, hks])]

theorem children_at_new_with_data (d : ManagedOctreeData D) (k : ℕ) :
    children_at (new_with_data d) k = none := by
  rcases k with _ | _ | _ | _ | _ | _ | _ | _ | k <;> rfl

theorem children_at_new_child_at (t : ManagedOctree D) (j k : ℕ) :
    children_at (new_child_at (I := I) t j) k = none := by
  unfold new_child_at
  cases get_child_pos_at_idx j with
  | none => exact children_at_new_with_data _ k
  | some pos =>
    simp only [with_max_size]
    rw [children_at_set_data, children_at_set_data]
    exact children_at_new_with_data _ k

theorem own_list_new_child_at (t : ManagedOctree D) (j : ℕ) :
    own_list (I := I) (new_child_at (I := I) t j) = [] := by
  unfold new_child_at
  cases get_child_pos_at_idx j with
  | none =>
    rw [own_list, get_data_new_managed]
    exact LawfulColl.toList_empty (D := D)
  | some pos =>
    simp only [with_max_size, own_list, get_data_set_data, get_data_new_managed]
    exact LawfulColl.toList_empty (D := D)

theorem get_data_new_child_at {t : ManagedOctree D} {j : ℕ}
    {pos : Bool × Bool × Bool} (h : get_child_pos_at_idx j = some pos) :
    (new_child_at (I := I) t j).get_data =
      { centre := (get_child_centre_and_half_length_at_pos t
          pos.1 pos.2.1 pos.2.2).1,
        half_length := (get_child_centre_and_half_length_at_pos t
          pos.1 pos.2.1 pos.2.2).2,
        max_size := t.get_data.max_size,
        drop_below_size := t.get_data.drop_below_size,
        len := 0,
        data := (OctreeCollection.empty : D) } := by
  unfold new_child_at
  rw [h]
  rfl

theorem get_child_pos_at_idx_isSome {j : ℕ} (h : j < 8) :
    ∃ pos, get_child_pos_at_idx j = some pos := by
  interval_cases j <;> exact ⟨_, rfl⟩

theorem rebalance_loop_cons_eq {t : ManagedOctree D} {j v ns : ℕ}
    (rest : List (ℕ × ℕ)) (hj8 : j < 8) (hfree : children_at t j = none)
    (hdbs : t.get_data.drop_below_size ≠ 0) :
    rebalance_loop ((j, v) :: rest) t ns =
      if ns - v ≤ t.get_data.max_size then
        some (set_child_slot t j (some (new_child_at (I := I) t j)))
      else
        rebalance_loop rest
          (set_child_slot t j (some (new_child_at (I := I) t j))) (ns - v) := by
  obtain ⟨pos, hpos⟩ := get_child_pos_at_idx_isSome hj8
  obtain ⟨px, py, pz⟩ := pos
  rw [rebalance_loop, hpos]
  dsimp only
  simp only [with_drop_below_size, if_neg hdbs]
  have haddc : add_child t j (new_child_at (I := I) t j) =
      (set_child_slot t j (some (new_child_at (I := I) t j)), none) := by
    rw [add_child, if_neg (by omega), hfree]
    rfl
  have hchild : set_data
      (with_max_size (new_managed (D := D) (I := I)
        (get_child_centre_and_half_length_at_pos t px py pz).1
        (get_child_centre_and_half_length_at_pos t px py pz).2)
        t.get_data.max_size)
      { (with_max_size (new_managed (D := D) (I := I)
          (get_child_centre_and_half_length_at_pos t px py pz).1
          (get_child_centre_and_half_length_at_pos t px py pz).2)
          t.get_data.max_size).get_data with
        drop_below_size := t.get_data.drop_below_size } =
      new_child_at (I := I) t j := by
    unfold new_child_at
    rw [hpos]
  rw [hchild, haddc]
  dsimp only
  rw [get_data_set_child_slot]

/-- The subdivision loop of `rebalance`, characterized: walking a descending
bucket list whose nonzero octants are child-free, the loop never panics and
attaches new children along a nonempty prefix `W` of the list — the shortest
prefix whose counters bring the running size estimate to `max_size` or below;
every walked octant had a nonzero counter. -/
theorem rebalance_loop_spec :
    ∀ (L : List (ℕ × ℕ)) (t : ManagedOctree D) (ns : ℕ),
      (∀ p ∈ L, p.1 < 8) →
      L.Pairwise (fun a b => b.2 ≤ a.2) →
      ((L.map Prod.fst).Nodup) →
      (∀ p ∈ L, p.2 ≠ 0 → children_at t p.1 = none) →
      ns ≤ (L.map Prod.snd).sum →
      t.get_data.max_size < ns →
      t.get_data.drop_below_size ≠ 0 →
      ∃ W, W <+: L ∧ W ≠ [] ∧ (∀ p ∈ W, p.2 ≠ 0) ∧
        rebalance_loop L t ns =
          some (add_children (I := I) t (W.map Prod.fst)) ∧
        ns - (W.map Prod.snd).sum ≤ t.get_data.max_size ∧
        (∀ V, V <+: W → V ≠ W →
          t.get_data.max_size < ns - (V.map Prod.snd).sum) := by
  intro L
  induction L with
  | nil =>
    intro t ns _ _ _ _ hsum hgt _
    simp only [List.map_nil, List.sum_nil, Nat.le_zero] at hsum
    omega
  | cons p rest ih =>
    obtain ⟨j, v⟩ := p
    intro t ns hL1 hL2 hnd hfree hsum hgt hdbs
    obtain ⟨hL2head, hL2rest⟩ := List.pairwise_cons.1 hL2
    have hv : v ≠ 0 := by
      intro hv0
      have hrest0 : ((rest.map Prod.snd).sum) = 0 := by
        apply List.sum_eq_zero
        intro x hx
        obtain ⟨q, hq, rfl⟩ := List.mem_map.1 hx
        have := hL2head q hq
        omega
      rw [List.map_cons, List.sum_cons, hrest0, hv0] at hsum
      omega
    have hj8 : j < 8 := hL1 (j, v) (List.mem_cons_self _ _)
    have hfree0 : children_at t j = none :=
      hfree (j, v) (List.mem_cons_self _ _) hv
    rw [rebalance_loop_cons_eq rest hj8 hfree0 hdbs]
    have hdata₂ : (set_child_slot t j
        (some (new_child_at (I := I) t j))).get_data = t.get_data :=
      get_data_set_child_slot t j _
    split_ifs with hstop
    · refine ⟨[(j, v)], ⟨rest, rfl⟩, by simp, ?_, rfl, by simpa using hstop, ?_⟩
      · intro q hq
        rw [List.mem_singleton.1 hq]
        exact hv
      · intro V hV hVne
        rcases V with _ | ⟨q, V'⟩
        · simpa using hgt
        · obtain ⟨rfl, hV'⟩ := List.cons_prefix_cons.1 hV
          rw [List.prefix_nil.1 hV'] at hVne
          exact absurd rfl hVne
    · rw [List.map_cons] at hnd
      have hjnotin : j ∉ rest.map Prod.fst := (List.nodup_cons.1 hnd).1
      have hfree₂ : ∀ q ∈ rest, q.2 ≠ 0 →
          children_at (set_child_slot t j
            (some (new_child_at (I := I) t j))) q.1 = none := by
        intro q hq hq2
        have hq1j : q.1 ≠ j := by
          intro hqe
          exact hjnotin (hqe ▸ List.mem_map_of_mem Prod.fst hq)
        rw [children_at_set_other t hq1j]
        exact hfree q (List.mem_cons_of_mem _ hq) hq2
      have hsum₂ : ns - v ≤ (rest.map Prod.snd).sum := by
        rw [List.map_cons, List.sum_cons] at hsum
        omega
      have hgt₂ : (set_child_slot t j
          (some (new_child_at (I := I) t j))).get_data.max_size < ns - v := by
        rw [hdata₂]
        omega
      obtain ⟨W', hW'pre, hW'ne, hW'nz, hW'eq, hW'stop, hW'min⟩ :=
        ih (set_child_slot t j (some (new_child_at (I := I) t j))) (ns - v)
          (fun q hq => hL1 q (List.mem_cons_of_mem _ hq)) hL2rest
          (List.nodup_cons.1 hnd).2
          hfree₂ hsum₂ hgt₂ (by rw [hdata₂]; exact hdbs)
      refine ⟨(j, v) :: W', ?_, by simp, ?_, ?_, ?_, ?_⟩
      · obtain ⟨tail, htail⟩ := hW'pre
        exact ⟨tail, by rw [List.cons_append, htail]⟩
      · intro q hq
        rcases List.mem_cons.1 hq with rfl | hq'
        · exact hv
        · exact hW'nz q hq'
      · rw [List.map_cons]
        rw [add_children]
        exact hW'eq
      · rw [List.map_cons, List.sum_cons, ← Nat.sub_sub]
        rw [hdata₂] at hW'stop
        exact hW'stop
      · intro V hV hVne
        rcases V with _ | ⟨q, V'⟩
        · simpa using hgt
        · obtain ⟨rfl, hV'⟩ := List.cons_prefix_cons.1 hV
          have hV'ne : V' ≠ W' := by
            intro he
            exact hVne (by rw [he])
          have := hW'min V' hV' hV'ne
          rw [hdata₂] at this
          rw [List.map_cons, List.sum_cons, ← Nat.sub_sub]
          exact this

theorem rebalance_eq_of_le {t : ManagedOctree D}
    (hle : OctreeCollection.len (I := I)
        (move_to_existing_children t).1.get_data.data ≤
      (move_to_existing_children t).1.get_data.max_size) :
    rebalance (I := I) t = some (move_to_existing_children t).1 := by
  unfold rebalance
  rw [if_pos hle]

theorem rebalance_eq_of_gt {t : ManagedOctree D}
    (hgt : ¬ (OctreeCollection.len (I := I)
        (move_to_existing_children t).1.get_data.data ≤
      (move_to_existing_children t).1.get_data.max_size)) :
    rebalance (I := I) t =
      (rebalance_loop (sort_bucket_sizes (move_to_existing_children t).2)
        (move_to_existing_children t).1
        (OctreeCollection.len (I := I)
          (move_to_existing_children t).1.get_data.data)).map
        (fun t2 => (move_to_existing_children t2).1) := by
  unfold rebalance
  rw [if_neg hgt]
  cases rebalance_loop (sort_bucket_sizes (move_to_existing_children t).2)
      (move_to_existing_children t).1
      (OctreeCollection.len (I := I)
        (move_to_existing_children t).1.get_data.data) with
  | none => rfl
  | some t2 => rfl

/-- Everything the overflow branch of `rebalance` needs about the sorted
bucket list of the first pass. -/
theorem sorted_buckets_facts (t : ManagedOctree D)
    (hPW : pairwise_ok (D := D) (own_list (I := I) t)) :
    (∀ p ∈ sort_bucket_sizes (move_to_existing_children t).2, p.1 < 8) ∧
    (∀ p ∈ sort_bucket_sizes (move_to_existing_children t).2, p.2 ≠ 0 →
      children_at (move_to_existing_children t).1 p.1 = none) ∧
    ((sort_bucket_sizes (move_to_existing_children t).2).map Prod.snd).sum
      = OctreeCollection.len (I := I)
          (move_to_existing_children t).1.get_data.data := by
  obtain ⟨h0, hcfg, hown, hch, hreslen, hres, hsum⟩ := move_pass_spec t hPW
  refine ⟨?_, ?_, ?_⟩
  · intro p hp
    have := (mem_sort_bucket_sizes hp).1
    rw [hreslen] at this
    exact this
  · intro p hp hp2
    have hgetD := (mem_sort_bucket_sizes hp).2
    rw [hres p.1] at hgetD
    have hne : (((own_list (I := I) t).filter (keptb t.get_data.centre t)).filter
        (fun i => decide (route t.get_data.centre i = p.1))).length ≠ 0 := by
      rw [hgetD]
      exact hp2
    obtain ⟨i, hi⟩ := List.exists_mem_of_ne_nil _
      (List.length_pos.1 (Nat.pos_of_ne_zero hne))
    have hroute : route t.get_data.centre i = p.1 := by
      have := List.of_mem_filter hi
      simpa using this
    have hkepti : keptb (D := D) (I := I) t.get_data.centre t i = true :=
      List.of_mem_filter (List.mem_of_mem_filter hi)
    have hslot : children_at t p.1 = none := by
      rw [← hroute]
      have : (children_at t (route t.get_data.centre i)).isSome = false := by
        rw [keptb] at hkepti
        simpa using hkepti
      simpa using this
    have := h0 p.1
    rw [hslot] at this
    simpa using this
  · rw [sort_bucket_sizes_sum, hsum, LawfulColl.len_toList (I := I)]
    exact congrArg List.length hown.symm

/-- C10: under valid configuration (`drop_below_size ≠ 0`, guaranteed by the
constructors) and a conflict-free own collection (true of every real `Vec` or
`HashMap`), `rebalance` never panics: the `unwrap` on `add_child` in the
subdivision loop never sees an error, because walked octants all carry a
nonzero overflow counter (hence had no child during the pass) and the loop
breaks no later than the last nonzero counter. -/
theorem rebalance_no_panic {D I : Type} [OctreeCollection D I] [CentredItem I]
    [LawfulColl D I] (t : ManagedOctree D)
    (hPW : pairwise_ok (D := D) (own_list (I := I) t))
    (hdbs : t.get_data.drop_below_size ≠ 0) :
    (rebalance (I := I) t).isSome = true := by
  by_cases hle : OctreeCollection.len (I := I)
      (move_to_existing_children t).1.get_data.data ≤
    (move_to_existing_children t).1.get_data.max_size
  · rw [rebalance_eq_of_le hle]
    rfl
  · obtain ⟨hL1, hLfree, hLsum⟩ := sorted_buckets_facts t hPW
    obtain ⟨_, hcfg, _, _, _, _, _⟩ := move_pass_spec t hPW
    obtain ⟨W, _, _, _, hWeq, _, _⟩ :=
      rebalance_loop_spec (sort_bucket_sizes (move_to_existing_children t).2)
        (move_to_existing_children t).1
        (OctreeCollection.len (I := I)
          (move_to_existing_children t).1.get_data.data)
        hL1 (sort_bucket_sizes_sorted _) (sort_bucket_sizes_nodup_fst _)
        hLfree (le_of_eq hLsum.symm) (by omega)
        (by rw [hcfg.2.2.2]; exact hdbs)
    rw [rebalance_eq_of_gt hle, hWeq]
    rfl

theorem gcchl_congr2 {t1 t2 : ManagedOctree D}
    (hc : t1.get_data.centre = t2.get_data.centre)
    (hh : t1.get_data.half_length = t2.get_data.half_length)
    (px py pz : Bool) :
    get_child_centre_and_half_length_at_pos t1 px py pz =
      get_child_centre_and_half_length_at_pos t2 px py pz := by
  unfold get_child_centre_and_half_length_at_pos
  rw [hc, hh]

end Octree

/-! ## Claim theorems: concrete evaluations -/

/-- C4's scenario tree: sequential collection, centre `(0,0,0)`, half-extent
`1000`, `max_size = 2`, with the three points added. -/
def scenario_tree : ManagedVecOctree (ℚ × ℚ × ℚ) :=
  madd (madd (madd (with_max_size (new_managed (0, 0, 0) 1000) 2)
    (1, 1, 1)) (2, 2, 1)) (-1, -1, -1)

/-- C4: after one `rebalance` of the scenario tree, the root's own collection
holds exactly 1 item, the child at octant `(true,true,true)` exists and holds
exactly 2 items, and no child exists at octant `(false,false,false)`. -/
theorem scenario_rebalance_spec :
    (rebalance scenario_tree).map (fun t =>
      (OctreeCollection.len (I := ℚ × ℚ × ℚ) t.get_data.data,
        (get_child_at_pos t true true true).map
          (fun c => OctreeCollection.len (I := ℚ × ℚ × ℚ) c.get_data.data),
        (get_child_at_pos t false false false).isSome)) =
      some (1, some 2, false) := by
  decide

/-- C1 is violated by the code: on a fresh sequential node holding one item,
one `rebalance` call leaves the cached local count at 2 while the node's own
collection holds 1 item (`move_to_existing_children` re-adds kept items
through `add` without having reset the cached count when it swapped the
collection out). -/
theorem local_count_divergence :
    (rebalance (madd (new_managed (D := List (ℚ × ℚ × ℚ)) (0, 0, 0) 1)
        ((1 : ℚ), 1, 1))).map
      (fun t => (t.get_data.len,
        OctreeCollection.len (I := ℚ × ℚ × ℚ) t.get_data.data)) =
      some (2, 1) := by
  decide

/-- C2's count clause is violated by the code: inserting key `123` twice with
different values into an associative node is indeed silent and keeps the first
value, but the cached local count ends at 2, not 1 (`ManagedOctree::add`
discards the collection's rejection signal and increments unconditionally). -/
theorem duplicate_key_divergence :
    (OctreeCollection.toList
        (madd (madd (new_managed (D := HashMapModel ℕ (ℚ × ℚ × ℚ)) (0, 0, 0) 1000)
          (123, ((1 : ℚ), 2, 3))) (123, ((4 : ℚ), 5, 6))).get_data.data =
      [(123, ((1 : ℚ), 2, 3))]) ∧
    (madd (madd (new_managed (D := HashMapModel ℕ (ℚ × ℚ × ℚ)) (0, 0, 0) 1000)
        (123, ((1 : ℚ), 2, 3))) (123, ((4 : ℚ), 5, 6))).get_data.len = 2 := by
  constructor
  · decide
  · decide

/-! ## Claim theorem: the subdivision behaviour of `rebalance` -/

/-- C5: after the first redistribution pass, if the node's collection size is
at most `max_size` no children are created; otherwise children are created
along a prefix `W` of the descending-sorted per-octant counters — every walked
octant has a nonzero counter and no pre-existing child, each new child gets
its geometry from `get_child_centre_and_half_length_at_pos` and the node's
`max_size`/`drop_below_size` and has no children of its own, `W` is the
shortest prefix that brings the remaining-size estimate to `max_size` or
below, between 1 and 8 children are created, pre-existing children keep their
configuration and their own children (no re-subdivision, no recursion), and
untouched octants stay child-free. -/
theorem rebalance_subdivision_spec {D I : Type} [OctreeCollection D I]
    [CentredItem I] [LawfulColl D I] (t : ManagedOctree D)
    (hPW : pairwise_ok (D := D) (own_list (I := I) t))
    (hdbs : t.get_data.drop_below_size ≠ 0) :
    (OctreeCollection.len (I := I)
        (move_to_existing_children t).1.get_data.data ≤
      (move_to_existing_children t).1.get_data.max_size →
      rebalance (I := I) t = some (move_to_existing_children t).1 ∧
      ∀ j, (children_at (move_to_existing_children t).1 j).isSome
        = (children_at t j).isSome) ∧
    ((move_to_existing_children t).1.get_data.max_size <
      OctreeCollection.len (I := I)
        (move_to_existing_children t).1.get_data.data →
      ∃ W, W <+: sort_bucket_sizes (move_to_existing_children t).2 ∧
        1 ≤ W.length ∧ W.length ≤ 8 ∧
        (∀ p ∈ W, p.2 ≠ 0 ∧ children_at t p.1 = none) ∧
        rebalance (I := I) t =
          some (move_to_existing_children
            (add_children (I := I) (move_to_existing_children t).1
              (W.map Prod.fst))).1 ∧
        OctreeCollection.len (I := I)
            (move_to_existing_children t).1.get_data.data
          - (W.map Prod.snd).sum ≤ t.get_data.max_size ∧
        (∀ V, V <+: W → V ≠ W →
          t.get_data.max_size <
            OctreeCollection.len (I := I)
              (move_to_existing_children t).1.get_data.data
            - (V.map Prod.snd).sum) ∧
        (∀ t', rebalance (I := I) t = some t' →
          (∀ j ∈ W.map Prod.fst,
            ∃ pos c', get_child_pos_at_idx j = some pos ∧
              children_at t' j = some c' ∧
              c'.get_data.centre = (get_child_centre_and_half_length_at_pos t
                pos.1 pos.2.1 pos.2.2).1 ∧
              c'.get_data.half_length = (get_child_centre_and_half_length_at_pos t
                pos.1 pos.2.1 pos.2.2).2 ∧
              c'.get_data.max_size = t.get_data.max_size ∧
              c'.get_data.drop_below_size = t.get_data.drop_below_size ∧
              (∀ k, children_at c' k = none)) ∧
          (∀ j c, children_at t j = some c →
            ∃ c', children_at t' j = some c' ∧
              (∀ k, children_at c' k = children_at c k) ∧
              same_config c'.get_data c.get_data) ∧
          (∀ j, j ∉ W.map Prod.fst → children_at t j = none →
            children_at t' j = none))) := by
  obtain ⟨h0, hcfg, hown, hch, hreslen, hres, hsum⟩ := move_pass_spec t hPW
  constructor
  · intro hle
    exact ⟨rebalance_eq_of_le hle, h0⟩
  · intro hgt
    obtain ⟨hL1, hLfree, hLsum⟩ := sorted_buckets_facts t hPW
    obtain ⟨W, hWpre, hWne, hWnz, hWeq, hWstop, hWmin⟩ :=
      rebalance_loop_spec (sort_bucket_sizes (move_to_existing_children t).2)
        (move_to_existing_children t).1
        (OctreeCollection.len (I := I)
          (move_to_existing_children t).1.get_data.data)
        hL1 (sort_bucket_sizes_sorted _) (sort_bucket_sizes_nodup_fst _)
        hLfree (le_of_eq hLsum.symm) hgt
        (by rw [hcfg.2.2.2]; exact hdbs)
    have hmemL : ∀ p ∈ W, p ∈ sort_bucket_sizes (move_to_existing_children t).2 :=
      fun p hp => hWpre.subset hp
    have hW8 : ∀ j ∈ W.map Prod.fst, j < 8 := by
      intro j hj
      obtain ⟨p, hp, rfl⟩ := List.mem_map.1 hj
      exact hL1 p (hmemL p hp)
    have ht2data : (add_children (I := I) (move_to_existing_children t).1
        (W.map Prod.fst)).get_data = (move_to_existing_children t).1.get_data :=
      get_data_add_children _ _
    have hPW2 : pairwise_ok (D := D) (own_list (I := I)
        (add_children (I := I) (move_to_existing_children t).1
          (W.map Prod.fst))) := by
      have heq : own_list (I := I)
          (add_children (I := I) (move_to_existing_children t).1
            (W.map Prod.fst)) = own_list (I := I) (move_to_existing_children t).1 := by
        rw [own_list, ht2data]
        rfl
      rw [heq, hown]
      exact List.Pairwise.sublist (List.filter_sublist _) hPW
    obtain ⟨h0', hcfg', hown', hch', _, _, _⟩ :=
      move_pass_spec (add_children (I := I) (move_to_existing_children t).1
        (W.map Prod.fst)) hPW2
    have hreb : rebalance (I := I) t =
        some (move_to_existing_children
          (add_children (I := I) (move_to_existing_children t).1
            (W.map Prod.fst))).1 := by
      rw [rebalance_eq_of_gt (not_le.mpr hgt), hWeq]
      rfl
    have hfree_t : ∀ p ∈ W, children_at t p.1 = none := by
      intro p hp
      have h1 : children_at (move_to_existing_children t).1 p.1 = none :=
        hLfree p (hmemL p hp) (hWnz p hp)
      have h2 := h0 p.1
      rw [h1] at h2
      have h3 : (children_at t p.1).isSome = false := h2.symm
      simpa using h3
    refine ⟨W, hWpre, ?_, ?_, ?_, hreb, ?_, ?_, ?_⟩
    · exact Nat.one_le_iff_ne_zero.2 (fun h => hWne (List.eq_nil_of_length_eq_zero h))
    · have := hWpre.length_le
      rw [sort_bucket_sizes_length, hreslen] at this
      exact this
    · exact fun p hp => ⟨hWnz p hp, hfree_t p hp⟩
    · rw [← hcfg.2.2.1]
      exact hWstop
    · intro V hV hVne
      rw [← hcfg.2.2.1]
      exact hWmin V hV hVne
    · intro t' ht'
      rw [hreb] at ht'
      cases ht'
      refine ⟨?_, ?_, ?_⟩
      · intro j hj
        obtain ⟨pos, hpos⟩ := get_child_pos_at_idx_isSome (hW8 j hj)
        have ht2j : children_at (add_children (I := I)
            (move_to_existing_children t).1 (W.map Prod.fst)) j =
            some (new_child_at (I := I) (move_to_existing_children t).1 j) := by
          rw [children_at_add_children _ _ hW8 j, if_pos hj]
        obtain ⟨c', hc'eq, _, hc'slots, hc'cfg⟩ :=
          hch' j (new_child_at (I := I) (move_to_existing_children t).1 j) ht2j
        have hncd := get_data_new_child_at (t := (move_to_existing_children t).1)
          (I := I) hpos
        have hg := gcchl_congr2 hcfg.1 hcfg.2.1 pos.1 pos.2.1 pos.2.2
        refine ⟨pos, c', hpos, hc'eq, ?_, ?_, ?_, ?_, ?_⟩
        · rw [hc'cfg.1, hncd, ← hg]
        · rw [hc'cfg.2.1, hncd, ← hg]
        · rw [hc'cfg.2.2.1, hncd]
          exact hcfg.2.2.1
        · rw [hc'cfg.2.2.2, hncd]
          exact hcfg.2.2.2
        · intro k
          rw [hc'slots k]
          exact children_at_new_child_at _ j k
      · intro j c hc
        obtain ⟨c1, hc1eq, _, hc1slots, hc1cfg⟩ := hch j c hc
        have hjW : j ∉ W.map Prod.fst := by
          intro hj
          obtain ⟨p, hp, rfl⟩ := List.mem_map.1 hj
          rw [hLfree p (hmemL p hp) (hWnz p hp)] at hc1eq
          cases hc1eq
        have ht2j : children_at (add_children (I := I)
            (move_to_existing_children t).1 (W.map Prod.fst)) j = some c1 := by
          rw [children_at_add_children _ _ hW8 j, if_neg hjW]
          exact hc1eq
        obtain ⟨c2, hc2eq, _, hc2slots, hc2cfg⟩ := hch' j c1 ht2j
        exact ⟨c2, hc2eq, fun k => (hc2slots k).trans (hc1slots k),
          same_config_trans hc2cfg hc1cfg⟩
      · intro j hjW hjnone
        have h1 : children_at (move_to_existing_children t).1 j = none := by
          have h2 := h0 j
          rw [hjnone] at h2
          simpa using h2
        have ht2j : children_at (add_children (I := I)
            (move_to_existing_children t).1 (W.map Prod.fst)) j = none := by
          rw [children_at_add_children _ _ hW8 j, if_neg hjW]
          exact h1
        have h3 := h0' j
        rw [ht2j] at h3
        simpa using h3

/-! ## Multiset bookkeeping for the no-loss theorem -/

namespace Octree

open List

/-- Append eight per-octant lists. -/
def slot_app {α : Type} (g : ℕ → List α) : List α :=
  g 0 ++ g 1 ++ g 2 ++ g 3 ++ g 4 ++ g 5 ++ g 6 ++ g 7

theorem slot_app_congr {α : Type} {g h : ℕ → List α}
    (he : ∀ j, j < 8 → g j = h j) : slot_app g = slot_app h := by
  unfold slot_app
  rw [he 0 (by omega), he 1 (by omega), he 2 (by omega), he 3 (by omega),
    he 4 (by omega), he 5 (by omega), he 6 (by omega), he 7 (by omega)]

theorem coe_slot_app {α : Type} (g : ℕ → List α) :
    ((slot_app g : List α) : Multiset α) =
      ↑(g 0) + ↑(g 1) + ↑(g 2) + ↑(g 3) + ↑(g 4) + ↑(g 5) + ↑(g 6) + ↑(g 7) := rfl

theorem coe_slot_app_add {α : Type} (g g1 g2 : ℕ → List α)
    (h : ∀ j, j < 8 → ((g j : List α) : Multiset α) = ↑(g1 j) + ↑(g2 j)) :
    ((slot_app g : List α) : Multiset α) = ↑(slot_app g1) + ↑(slot_app g2) := by
  rw [coe_slot_app, coe_slot_app, coe_slot_app, h 0 (by omega), h 1 (by omega),
    h 2 (by omega), h 3 (by omega), h 4 (by omega), h 5 (by omega),
    h 6 (by omega), h 7 (by omega)]
  abel

theorem coe_filter_split {α : Type} (p : α → Bool) (l : List α) :
    (l : Multiset α) = ↑(l.filter p) + ↑(l.filter (fun i => !p i)) := by
  have h : ((l.filter p : List α) : Multiset α) + ↑(l.filter (fun i => !p i))
      = ↑(l.filter p ++ l.filter (fun i => !p i)) := rfl
  rw [h, Multiset.coe_eq_coe]
  exact (List.filter_append_perm p l).symm

theorem perm_push_in {α : Type} (x : α) (A R S : List α)
    (h : List.Perm (x :: R) S) : List.Perm (x :: (A ++ R)) (A ++ S) :=
  (List.perm_middle.symm).trans (h.append_left A)

/-- Partitioning a list into its eight octant blocks preserves the multiset. -/
theorem coe_octant_partition {α : Type} (f : α → ℕ) (l : List α)
    (hf : ∀ i ∈ l, f i < 8) :
    (l : Multiset α) =
      ↑(slot_app (fun j => l.filter (fun i => decide (f i = j)))) := by
  induction l with
  | nil => rfl
  | cons x xs ih =>
    have hx : f x < 8 := hf x (List.mem_cons_self x xs)
    have ihx := ih (fun i hi => hf i (List.mem_cons_of_mem x hi))
    have h8 : f x = 0 ∨ f x = 1 ∨ f x = 2 ∨ f x = 3 ∨ f x = 4 ∨ f x = 5 ∨
        f x = 6 ∨ f x = 7 := by omega
    have hcoe : ((x :: xs : List α) : Multiset α) = {x} + ↑xs := by
      rw [Multiset.singleton_add, Multiset.cons_coe]
    rcases h8 with h | h | h | h | h | h | h | h <;>
      (rw [hcoe, ihx, coe_slot_app, coe_slot_app]
       simp only [List.filter_cons, h]
       norm_num
       all_goals repeat
         first
           | exact List.Perm.refl _
           | apply perm_push_in)

variable {D I : Type} [OctreeCollection D I] [CentredItem I] [LawfulColl D I]

theorem children_items_eq_slot_app (t : ManagedOctree D) :
    children_items (I := I) t = slot_app (fun j => osubtree (children_at t j)) :=
  rfl

theorem children_items_congr {c c' : ManagedOctree D}
    (h : ∀ k, children_at c' k = children_at c k) :
    children_items (I := I) c' = children_items (I := I) c := by
  unfold children_items
  rw [h 0, h 1, h 2, h 3, h 4, h 5, h 6, h 7]

/-- Items a redistribution pass of `b` moves into the existing child at
octant `j` (accepted by that child's collection). -/
def recv_at (b : ManagedOctree D) (j : ℕ) : List I :=
  match children_at b j with
  | some c =>
    ((own_list (I := I) b).filter
      (fun i => decide (route b.get_data.centre i = j))).filter
      (fun i => !(conflicts (D := D) (own_list (I := I) c) i))
  | none => []

/-- Items a redistribution pass of `b` silently drops at octant `j` (routed
to an existing child whose collection conflicts with them). -/
def drop_at (b : ManagedOctree D) (j : ℕ) : List I :=
  match children_at b j with
  | some c =>
    ((own_list (I := I) b).filter
      (fun i => decide (route b.get_data.centre i = j))).filter
      (fun i => conflicts (D := D) (own_list (I := I) c) i)
  | none => []

/-- Items routed by a pass of `b` to an octant that has a child. -/
def moved_at (b : ManagedOctree D) (j : ℕ) : List I :=
  match children_at b j with
  | some _ =>
    (own_list (I := I) b).filter
      (fun i => decide (route b.get_data.centre i = j))
  | none => []

/-- The items of a node's collection that one redistribution pass silently
drops: those whose octant has an existing child whose collection already
conflicts with them (in the associative case: already holds their key). -/
def dropped_items (t : ManagedOctree D) : List I :=
  (own_list (I := I) t).filter (fun i =>
    match children_at t (route t.get_data.centre i) with
    | some c => conflicts (D := D) (own_list (I := I) c) i
    | none => false)

/-- The multiset identity of one redistribution pass: the resulting subtree
holds the kept items, the old children subtrees, and the received items. -/
theorem move_pass_multiset (b : ManagedOctree D)
    (hPW : pairwise_ok (D := D) (own_list (I := I) b)) :
    ((subtree_items (move_to_existing_children b).1 : List I) : Multiset I) =
      ↑((own_list (I := I) b).filter (keptb b.get_data.centre b)) +
        (↑(children_items (I := I) b) + ↑(slot_app (recv_at (I := I) b))) := by
  obtain ⟨h0, hcfg, hown, hch, _, _, _⟩ := move_pass_spec b hPW
  rw [subtree_items_eq_own_append]
  have hdistr : ((own_list (I := I) (move_to_existing_children b).1 ++
      children_items (I := I) (move_to_existing_children b).1 : List I) : Multiset I)
      = ↑(own_list (I := I) (move_to_existing_children b).1) +
        ↑(children_items (I := I) (move_to_existing_children b).1) := rfl
  rw [hdistr, hown]
  have hci : (↑(children_items (I := I) (move_to_existing_children b).1) : Multiset I)
      = ↑(children_items (I := I) b) + ↑(slot_app (recv_at (I := I) b)) := by
    rw [children_items_eq_slot_app, children_items_eq_slot_app]
    apply coe_slot_app_add
    intro j hj
    cases hbc : children_at b j with
    | none =>
      have hpass : children_at (move_to_existing_children b).1 j = none := by
        have h2 := h0 j
        rw [hbc] at h2
        simpa using h2
      rw [hpass]
      simp only [recv_at, hbc]
      rfl
    | some c =>
      obtain ⟨c', hc'eq, hc'own, hc'slots, _⟩ := hch j c hbc
      rw [hc'eq]
      simp only [recv_at, hbc]
      show ((subtree_items c' : List I) : Multiset I)
        = ↑(subtree_items c) +
          ↑(((own_list (I := I) b).filter
              (fun i => decide (route b.get_data.centre i = j))).filter
            (fun i => !(conflicts (D := D) (own_list (I := I) c) i)))
      rw [subtree_items_eq_own_append c', subtree_items_eq_own_append c, hc'own,
        children_items_congr hc'slots]
      show (↑(own_list (I := I) c) +
          ↑(((own_list (I := I) b).filter
              (fun i => decide (route b.get_data.centre i = j))).filter
            (fun i => !(conflicts (D := D) (own_list (I := I) c) i))) +
          ↑(children_items (I := I) c) : Multiset I) = _
      rw [show ((own_list (I := I) c ++ children_items (I := I) c : List I) :
          Multiset I) = ↑(own_list (I := I) c) + ↑(children_items (I := I) c)
        from rfl]
      abel
  rw [hci]

/-- One redistribution pass loses exactly the dropped items. -/
theorem move_pass_conservation (b : ManagedOctree D)
    (hPW : pairwise_ok (D := D) (own_list (I := I) b)) :
    ((subtree_items b : List I) : Multiset I) =
      ↑(subtree_items (move_to_existing_children b).1) +
        ↑(dropped_items (I := I) b) := by
  have hsplit1 : ((own_list (I := I) b : List I) : Multiset I) =
      ↑((own_list (I := I) b).filter (keptb b.get_data.centre b)) +
        ↑(slot_app (moved_at (I := I) b)) := by
    rw [coe_filter_split (keptb b.get_data.centre b) (own_list (I := I) b)]
    congr 1
    rw [coe_octant_partition (fun i => route b.get_data.centre i)
      ((own_list (I := I) b).filter
        (fun i => !keptb b.get_data.centre b i))
      (fun i _ => route_lt_8 _ i)]
    congr 1
    apply slot_app_congr
    intro j hj
    rw [List.filter_filter]
    cases hbc : children_at b j with
    | none =>
      simp only [moved_at, hbc]
      rw [List.filter_eq_nil_iff]
      intro a _
      by_cases hr : route b.get_data.centre a = j
      · have : keptb (D := D) (I := I) b.get_data.centre b a = true := by
          rw [keptb, hr, hbc]
          rfl
        simp [this]
      · simp [hr]
    | some c =>
      simp only [moved_at, hbc]
      apply List.filter_congr
      intro x _
      by_cases hr : route b.get_data.centre x = j
      · have : keptb (D := D) (I := I) b.get_data.centre b x = false := by
          rw [keptb, hr, hbc]
          rfl
        simp [this, hr]
      · simp [hr]
  have hsplit2 : (↑(slot_app (moved_at (I := I) b)) : Multiset I) =
      ↑(slot_app (recv_at (I := I) b)) + ↑(slot_app (drop_at (I := I) b)) := by
    apply coe_slot_app_add
    intro j hj
    cases hbc : children_at b j with
    | none =>
      simp only [moved_at, recv_at, drop_at, hbc]
      rfl
    | some c =>
      simp only [moved_at, recv_at, drop_at, hbc]
      rw [coe_filter_split
        (fun i => !(conflicts (D := D) (own_list (I := I) c) i))
        ((own_list (I := I) b).filter
          (fun i => decide (route b.get_data.centre i = j)))]
      congr 2
      apply List.filter_congr
      intro x _
      rw [Bool.not_not]
  have hdrop : ((dropped_items (I := I) b : List I) : Multiset I) =
      ↑(slot_app (drop_at (I := I) b)) := by
    rw [dropped_items]
    rw [coe_octant_partition (fun i => route b.get_data.centre i)
      ((own_list (I := I) b).filter (fun i =>
        match children_at b (route b.get_data.centre i) with
        | some c => conflicts (D := D) (own_list (I := I) c) i
        | none => false))
      (fun i _ => route_lt_8 _ i)]
    congr 1
    apply slot_app_congr
    intro j hj
    rw [List.filter_filter]
    cases hbc : children_at b j with
    | none =>
      simp only [drop_at, hbc]
      rw [List.filter_eq_nil_iff]
      intro a _
      by_cases hr : route b.get_data.centre a = j
      · rw [hr, hbc]
        simp
      · simp [hr]
    | some c =>
      simp only [drop_at, hbc]
      rw [List.filter_filter]
      apply List.filter_congr
      intro x _
      by_cases hr : route b.get_data.centre x = j
      · rw [hr, hbc]
        simp [hr]
      · simp [hr]
  rw [subtree_items_eq_own_append b]
  have hdistr : ((own_list (I := I) b ++ children_items (I := I) b : List I) :
      Multiset I) = ↑(own_list (I := I) b) + ↑(children_items (I := I) b) := rfl
  rw [hdistr, move_pass_multiset b hPW, hsplit1, hsplit2, hdrop]
  abel

theorem subtree_items_new_child_at (t : ManagedOctree D) (j : ℕ) :
    subtree_items (I := I) (new_child_at (I := I) t j) = [] := by
  rw [subtree_items_eq_own_append, own_list_new_child_at, List.nil_append,
    children_items_eq_slot_app]
  have h : ∀ k, k < 8 →
      osubtree (children_at (new_child_at (I := I) t j) k) = ([] : List I) := by
    intro k _
    rw [children_at_new_child_at]
    rfl
  rw [slot_app_congr h]
  rfl

theorem rebalance_loop_none_of_dbs_zero (p : ℕ × ℕ) (rest : List (ℕ × ℕ))
    (t : ManagedOctree D) (ns : ℕ) (h : t.get_data.drop_below_size = 0) :
    rebalance_loop (I := I) (p :: rest) t ns = none := by
  obtain ⟨j, v⟩ := p
  rw [rebalance_loop]
  cases hpos : get_child_pos_at_idx j with
  | none => rfl
  | some pos =>
    obtain ⟨px, py, pz⟩ := pos
    dsimp only
    simp only [with_drop_below_size, if_pos h]

end Octree

/-- C3: `rebalance` preserves the multiset of positioned items in the node's
subtree, except that items routed to an octant whose pre-existing child's
collection already conflicts with them (associative duplicate keys present
before the call) are dropped — and exactly those. -/
theorem rebalance_preserves_subtree {D I : Type} [OctreeCollection D I]
    [CentredItem I] [LawfulColl D I] (t t' : ManagedOctree D)
    (hPW : pairwise_ok (D := D) (own_list (I := I) t))
    (hreb : rebalance (I := I) t = some t') :
    List.Perm (subtree_items t)
      (dropped_items (I := I) t ++ subtree_items t') := by
  rw [← Multiset.coe_eq_coe]
  rw [show ((dropped_items (I := I) t ++ subtree_items t' : List I) : Multiset I)
    = ↑(dropped_items (I := I) t) + ↑(subtree_items t') from rfl]
  by_cases hle : OctreeCollection.len (I := I)
      (move_to_existing_children t).1.get_data.data ≤
    (move_to_existing_children t).1.get_data.max_size
  · rw [rebalance_eq_of_le hle] at hreb
    cases hreb
    rw [move_pass_conservation t hPW]
    abel
  · rw [rebalance_eq_of_gt hle] at hreb
    obtain ⟨t2, ht2, ht'⟩ := Option.map_eq_some'.1 hreb
    obtain ⟨h0, hcfg, hown, hch, hreslen, hres, hsum⟩ := move_pass_spec t hPW
    have hdbs : (move_to_existing_children t).1.get_data.drop_below_size ≠ 0 := by
      intro h0dbs
      have hlen8 : (sort_bucket_sizes (move_to_existing_children t).2).length = 8 := by
        rw [sort_bucket_sizes_length, hreslen]
      cases hL : sort_bucket_sizes (move_to_existing_children t).2 with
      | nil => rw [hL] at hlen8; simp at hlen8
      | cons p rest =>
        rw [hL, rebalance_loop_none_of_dbs_zero p rest _ _ h0dbs] at ht2
        cases ht2
    obtain ⟨hL1, hLfree, hLsum⟩ := sorted_buckets_facts t hPW
    obtain ⟨W, hWpre, hWne, hWnz, hWeq, _, _⟩ :=
      rebalance_loop_spec (sort_bucket_sizes (move_to_existing_children t).2)
        (move_to_existing_children t).1
        (OctreeCollection.len (I := I)
          (move_to_existing_children t).1.get_data.data)
        hL1 (sort_bucket_sizes_sorted _) (sort_bucket_sizes_nodup_fst _)
        hLfree (le_of_eq hLsum.symm) (Nat.not_le.1 hle) hdbs
    rw [hWeq] at ht2
    have ht2eq : t2 = add_children (I := I) (move_to_existing_children t).1
        (W.map Prod.fst) := (Option.some.inj ht2).symm
    subst ht2eq
    have hW8 : ∀ j ∈ W.map Prod.fst, j < 8 := by
      intro j hj
      obtain ⟨p, hp, rfl⟩ := List.mem_map.1 hj
      exact hL1 p (hWpre.subset hp)
    have hownT2 : own_list (I := I) (add_children (I := I)
        (move_to_existing_children t).1 (W.map Prod.fst))
        = own_list (I := I) (move_to_existing_children t).1 := by
      rw [own_list, own_list, get_data_add_children]
    have hPW2 : pairwise_ok (D := D) (own_list (I := I)
        (add_children (I := I) (move_to_existing_children t).1
          (W.map Prod.fst))) := by
      rw [hownT2, hown]
      exact List.Pairwise.sublist (List.filter_sublist _) hPW
    have hciT2 : children_items (I := I) (add_children (I := I)
        (move_to_existing_children t).1 (W.map Prod.fst))
        = children_items (I := I) (move_to_existing_children t).1 := by
      rw [children_items_eq_slot_app, children_items_eq_slot_app]
      apply slot_app_congr
      intro j hj
      rw [children_at_add_children _ _ hW8 j]
      by_cases hjW : j ∈ W.map Prod.fst
      · rw [if_pos hjW]
        obtain ⟨p, hp, rfl⟩ := List.mem_map.1 hjW
        have hnone : children_at (move_to_existing_children t).1 p.1 = none :=
          hLfree p (hWpre.subset hp) (hWnz p hp)
        rw [hnone]
        exact subtree_items_new_child_at _ p.1
      · rw [if_neg hjW]
    have hsubT2 : subtree_items (I := I) (add_children (I := I)
        (move_to_existing_children t).1 (W.map Prod.fst))
        = subtree_items (I := I) (move_to_existing_children t).1 := by
      rw [subtree_items_eq_own_append, subtree_items_eq_own_append, hownT2, hciT2]
    have hdropT2 : dropped_items (I := I) (add_children (I := I)
        (move_to_existing_children t).1 (W.map Prod.fst)) = [] := by
      rw [dropped_items, List.filter_eq_nil_iff]
      intro a ha
      rw [hownT2, hown] at ha
      have hkepta : keptb (D := D) (I := I) t.get_data.centre t a = true :=
        List.of_mem_filter ha
      have hcent : (add_children (I := I) (move_to_existing_children t).1
          (W.map Prod.fst)).get_data.centre = t.get_data.centre := by
        rw [get_data_add_children]
        exact hcfg.1
      rw [hcent]
      have hra : children_at t (route t.get_data.centre a) = none := by
        rw [keptb] at hkepta
        have : (children_at t (route t.get_data.centre a)).isSome = false := by
          simpa using hkepta
        simpa using this
      have hrt1 : children_at (move_to_existing_children t).1
          (route t.get_data.centre a) = none := by
        have h2 := h0 (route t.get_data.centre a)
        rw [hra] at h2
        simpa using h2
      rw [children_at_add_children _ _ hW8]
      by_cases hjW : route t.get_data.centre a ∈ W.map Prod.fst
      · rw [if_pos hjW]
        simp [own_list_new_child_at, conflicts]
      · rw [if_neg hjW, hrt1]
        simp
    have hcons2 := move_pass_conservation
      (add_children (I := I) (move_to_existing_children t).1 (W.map Prod.fst))
      hPW2
    rw [hdropT2] at hcons2
    cases ht'
    rw [move_pass_conservation t hPW]
    have hx : ((subtree_items (I := I) (move_to_existing_children t).1 : List I) :
        Multiset I) = ↑(subtree_items (I := I) (move_to_existing_children
          (add_children (I := I) (move_to_existing_children t).1
            (W.map Prod.fst))).1) := by
      calc ((subtree_items (I := I) (move_to_existing_children t).1 : List I) :
            Multiset I)
          = ↑(subtree_items (I := I) (add_children (I := I)
              (move_to_existing_children t).1 (W.map Prod.fst))) := by
            rw [hsubT2]
        _ = ↑(subtree_items (I := I) (move_to_existing_children
              (add_children (I := I) (move_to_existing_children t).1
                (W.map Prod.fst))).1) + ↑([] : List I) := hcons2
        _ = ↑(subtree_items (I := I) (move_to_existing_children
              (add_children (I := I) (move_to_existing_children t).1
                (W.map Prod.fst))).1) := by simp
    rw [hx]
    abel

/-- A small concrete tree used to instantiate the general `rebalance`
theorems: a fresh sequential root with default policy. -/
def unit_tree : ManagedVecOctree (ℚ × ℚ × ℚ) := new_managed (0, 0, 0) 1

/-- Witness for `rebalance_no_panic` at a concrete tree. -/
theorem rebalance_no_panic_witness :
    (pairwise_ok (D := List (ℚ × ℚ × ℚ))
        (own_list (I := ℚ × ℚ × ℚ) unit_tree) ∧
      unit_tree.get_data.drop_below_size ≠ 0) ∧
    (rebalance (I := ℚ × ℚ × ℚ) unit_tree).isSome = true :=
  ⟨⟨List.Pairwise.nil, by decide⟩,
    rebalance_no_panic unit_tree List.Pairwise.nil (by decide)⟩

/-- Witness for `rebalance_subdivision_spec` at a concrete tree (exercising
the within-capacity branch of the conclusion). -/
theorem rebalance_subdivision_spec_witness :
    (pairwise_ok (D := List (ℚ × ℚ × ℚ))
        (own_list (I := ℚ × ℚ × ℚ) unit_tree) ∧
      unit_tree.get_data.drop_below_size ≠ 0 ∧
      OctreeCollection.len (I := ℚ × ℚ × ℚ)
          (move_to_existing_children unit_tree).1.get_data.data ≤
        (move_to_existing_children unit_tree).1.get_data.max_size) ∧
    rebalance (I := ℚ × ℚ × ℚ) unit_tree =
      some (move_to_existing_children unit_tree).1 :=
  ⟨⟨List.Pairwise.nil, by decide, by decide⟩,
    ((rebalance_subdivision_spec unit_tree List.Pairwise.nil (by decide)).1
      (by decide)).1⟩

/-- Concrete input for the no-loss witness: one item at `(1,1,1)` in a fresh
sequential root. -/
def one_item_tree : ManagedVecOctree (ℚ × ℚ × ℚ) :=
  madd (new_managed (0, 0, 0) 1000) (1, 1, 1)

/-- Witness for `rebalance_preserves_subtree` at a concrete tree. -/
theorem rebalance_preserves_subtree_witness :
    (pairwise_ok (D := List (ℚ × ℚ × ℚ))
        (own_list (I := ℚ × ℚ × ℚ) one_item_tree) ∧
      rebalance (I := ℚ × ℚ × ℚ) one_item_tree =
        some (move_to_existing_children one_item_tree).1) ∧
    List.Perm (subtree_items one_item_tree)
      (dropped_items (I := ℚ × ℚ × ℚ) one_item_tree ++
        subtree_items (move_to_existing_children one_item_tree).1) :=
  ⟨⟨List.pairwise_singleton .., rfl⟩,
    rebalance_preserves_subtree one_item_tree _
      (List.pairwise_singleton ..) rfl⟩

end SimpleOctree
